import Mathlib

/-!
Verification of the survey ingestion / distribution core of the
Lenny's Polls pipeline (`pipeline/ingest.py`, `pipeline/core.py`,
`pipeline/cli.py`).

The Python code is shallowly embedded: strings are processed as `List Char`
(Python `str`), JSON-ish optional keys become `Option` fields, Python's
`KeyError` on a direct `d[k]` access becomes `Except String`, and the
percentage arithmetic (`round(x, 1)`) is modelled exactly over `ℚ` with
round-half-to-even at one decimal place (Python's `round`).  Python's `\d`,
`\s` and `\w` regex classes are modelled by `Char.isDigit`,
`Char.isWhitespace` and ASCII alphanumerics plus underscore, which agree on
all inputs appearing in this code base.
-/

namespace LennysPolls

/-! ### Character-level helpers (Python `str` primitives and regexes) -/

/-- The three dash characters of the regex class `[-–—]`. -/
def isDashChar (c : Char) : Bool := c = '-' || c = '–' || c = '—'

/-- Python regex `\w`: ASCII letters, digits and underscore. -/
def isWordChar (c : Char) : Bool := c.isAlphanum || c = '_'

/-- Python `str.strip()`. -/
def trimChars (cs : List Char) : List Char :=
  ((cs.dropWhile Char.isWhitespace).reverse.dropWhile Char.isWhitespace).reverse

/-- Python `str.lower()` (ASCII; the titles and question texts are ASCII). -/
def lowerChars (cs : List Char) : List Char := cs.map Char.toLower

/-- Numeric value of a digit run, Python `int(...)` on a digit string. -/
def digitsToNat (cs : List Char) : Nat :=
  cs.foldl (fun n c => 10 * n + (c.toNat - 48)) 0

/-- Python `str.isdigit()`: non-empty and all digits. -/
def isDigitStr (cs : List Char) : Bool := !cs.isEmpty && cs.all Char.isDigit

/-- Match the literal `lit` at the head of `cs`; return the rest on success. -/
def litMatchAt : List Char → List Char → Option (List Char)
  | [], rest => some rest
  | _ :: _, [] => none
  | l :: ls, c :: cs => if l = c then litMatchAt ls cs else none

/-- Python `needle in hay` (substring containment). -/
def containsSub (needle : List Char) : List Char → Bool
  | [] => (litMatchAt needle []).isSome
  | cs@(_ :: rest) => (litMatchAt needle cs).isSome || containsSub needle rest

/-- Python `text.split(sep, 1)`: split at the first occurrence of `sep`,
returning the parts before and after, or `none` if `sep` does not occur. -/
def splitOnce (sep : List Char) : List Char → Option (List Char × List Char)
  | [] => match litMatchAt sep [] with
      | some after => some ([], after)
      | none => none
  | cs@(c :: rest) => match litMatchAt sep cs with
      | some after => some ([], after)
      | none => (splitOnce sep rest).map (fun p => (c :: p.1, p.2))

theorem litMatchAt_length_le : ∀ (lit cs after : List Char),
    litMatchAt lit cs = some after → after.length ≤ cs.length := by
  intro lit
  induction lit with
  | nil => intro cs after h; simp [litMatchAt] at h; simp [h]
  | cons l ls ih =>
      intro cs after h
      cases cs with
      | nil => simp [litMatchAt] at h
      | cons c cs' =>
          simp only [litMatchAt] at h
          split at h
          · exact Nat.le_succ_of_le (ih cs' after h)
          · exact absurd h (by simp)

theorem litMatchAt_cons_length : ∀ (l : Char) (ls cs after : List Char),
    litMatchAt (l :: ls) cs = some after → after.length < cs.length := by
  intro l ls cs after h
  cases cs with
  | nil => simp [litMatchAt] at h
  | cons c cs' =>
      simp only [litMatchAt] at h
      split at h
      · exact Nat.lt_succ_of_le (litMatchAt_length_le ls cs' after h)
      · exact absurd h (by simp)

/-- Python `str.replace(pat, rep)`: replace every (leftmost,
non-overlapping) occurrence.  The pattern is given as head and tail so it
is non-empty; `fuel` (instantiated with the input length, which bounds the
number of steps since every step consumes at least one character) makes the
recursion structural. -/
def replaceAllFuel (p : Char) (ps rep : List Char) :
    Nat → List Char → List Char
  | 0, cs => cs
  | _ + 1, [] => []
  | fuel + 1, c :: rest =>
    match litMatchAt (p :: ps) (c :: rest) with
    | some after => rep ++ replaceAllFuel p ps rep fuel after
    | none => c :: replaceAllFuel p ps rep fuel rest

def replaceAll (p : Char) (ps rep cs : List Char) : List Char :=
  replaceAllFuel p ps rep cs.length cs

/-! ### The regex patterns of `ingest.py` / `core.py`

* `ratingDashPat`  : `^\d+\s+[-–—]\s+\S`   (`_is_rating_question`)
* `looseDashPat`   : `^(\d+)\s*[-–—]`       (`_extract_rating`)
* `ratingKeyPat`   : `^(\d+)\s+[-–—]`       (rating sort key in the builders)
* `nLabelPat`      : `^(\d+)\s+-\s+(.+)`    (`short_choice`)
* `leadingIntPat`  : `^(\d+)`               (`_ordinal_sort_key`)

These are anchored patterns over character classes whose greedy matching
needs no backtracking, except for the trailing `\s+(.+)` of `nLabelPat`,
which is modelled including its backtracking (see below). -/

/-- `^\d+\s+[-–—]\s+\S` — applied by `_is_rating_question` to the stripped
answer text. -/
def ratingDashPat (cs : List Char) : Bool :=
  let (ds, r1) := cs.span Char.isDigit
  if ds.isEmpty then false else
  let (w1, r2) := r1.span Char.isWhitespace
  if w1.isEmpty then false else
  match r2 with
  | [] => false
  | d :: r3 =>
    if isDashChar d then
      let (w2, r4) := r3.span Char.isWhitespace
      if w2.isEmpty then false else !r4.isEmpty
    else false

/-- `^(\d+)\s*[-–—]` — the first branch of `_extract_rating`; returns the
captured leading integer. -/
def looseDashPat (cs : List Char) : Option Nat :=
  let (ds, r1) := cs.span Char.isDigit
  if ds.isEmpty then none else
  let (_, r2) := r1.span Char.isWhitespace
  match r2 with
  | d :: _ => if isDashChar d then some (digitsToNat ds) else none
  | [] => none

/-- `^(\d+)\s+[-–—]` — the rating sort key extracted (from the *unstripped*
choice text) in `build_question_distributions`. -/
def ratingKeyPat (cs : List Char) : Option Nat :=
  let (ds, r1) := cs.span Char.isDigit
  if ds.isEmpty then none else
  let (w1, r2) := r1.span Char.isWhitespace
  if w1.isEmpty then none else
  match r2 with
  | d :: _ => if isDashChar d then some (digitsToNat ds) else none
  | [] => none

/-- `^(\d+)\s+-\s+(.+)` (ASCII hyphen only) — returns group 2.  The trailing
`\s+(.+)` backtracks: if the greedy whitespace run swallows the whole rest of
the text, the engine gives the last non-newline whitespace character back to
`(.+)` (keeping at least one character in `\s+`). -/
def nLabelPat (cs : List Char) : Option (List Char) :=
  let (ds, r1) := cs.span Char.isDigit
  if ds.isEmpty then none else
  let (w1, r2) := r1.span Char.isWhitespace
  if w1.isEmpty then none else
  match r2 with
  | '-' :: r3 =>
    let (w2, r4) := r3.span Char.isWhitespace
    if w2.isEmpty then none else
    if r4.isEmpty then
      -- backtracking inside the trailing whitespace run
      match ((w2.drop 1).filter (fun c => c ≠ '\n')).getLast? with
      | some c => some [c]
      | none => none
    else some (r4.takeWhile (fun c => c ≠ '\n'))
  | _ => none

/-- `^(\d+)` on the stripped text — `_ordinal_sort_key`. -/
def ordinalSortKey (s : List Char) : Option Nat :=
  let (ds, _) := (trimChars s).span Char.isDigit
  if ds.isEmpty then none else some (digitsToNat ds)

/-! ### Word-boundary search (Python `re.search` of the `\b…\b` role patterns)

Every pattern literal in `ingest.py` begins with a word character, so its
leading `\b` asks for start-of-string or a preceding non-word character.
The trailing `\b` depends on the literal's last character: after a word
character it asks for end-of-string or a non-word character; after a
non-word character (the comma of `\bhead,\b`) it asks for a following word
character. -/

def wbTailOk (litLastWord : Bool) (rest : List Char) : Bool :=
  match rest with
  | [] => litLastWord
  | c :: _ => if litLastWord then !isWordChar c else isWordChar c

def searchWBAux (lit : List Char) (litLastWord : Bool) : Bool → List Char → Bool
  | _, [] => false
  | prevIsWord, c :: rest =>
    (!prevIsWord && (match litMatchAt lit (c :: rest) with
        | some after => wbTailOk litLastWord after
        | none => false))
    || searchWBAux lit litLastWord (isWordChar c) rest

def lastCharIsWord (lit : List Char) : Bool :=
  match lit.getLast? with
  | some c => isWordChar c
  | none => true

/-- `re.search(r"\b<lit>\b", t)` for a literal `lit` starting with a word
character. -/
def searchWB (lit : String) (t : List Char) : Bool :=
  searchWBAux lit.data (lastCharIsWord lit.data) false t

def searchAnyWB (pats : List String) (t : List Char) : Bool :=
  pats.any (fun p => searchWB p t)

/-- Search `\b<lit>\b` where the gap already consumed by `.*` may not cross a
newline; `prevIsWord` is the wordness of the character before the current
position. -/
def searchInLine (lit : List Char) : Bool → List Char → Bool
  | _, [] => false
  | prevIsWord, c :: rest =>
    (!prevIsWord && (match litMatchAt lit (c :: rest) with
        | some after => wbTailOk true after
        | none => false))
    || (if c = '\n' then false else searchInLine lit (isWordChar c) rest)

/-- `re.search(r"\bsenior manager\b.*\bproduct\b", t)`
(`_SENIOR_MANAGER_PRODUCT`). -/
def searchSeniorManagerProduct : Bool → List Char → Bool
  | _, [] => false
  | prevIsWord, c :: rest =>
    (!prevIsWord && (match litMatchAt "senior manager".data (c :: rest) with
        | some after => wbTailOk true after && searchInLine "product".data true after
        | none => false))
    || searchSeniorManagerProduct (isWordChar c) rest

/-! ### Data model (`models.py` and the raw Polly survey document)

Optional JSON keys are `Option` fields; a direct Python `d[key]` access on a
possibly-missing key is modelled in `Except String` (Python `KeyError`).
`RawQuestion.id` is accessed only as `q["id"]`; the documents this pipeline
consumes always carry it, so it is a plain field.  `Respondent.voted_at`
keeps the raw `created_at` string (the `datetime.fromisoformat` call is
modelled as the identity on the raw string; no claim depends on the parsed
value). -/

structure RawAnswer where
  user_id : Option String
  text : Option String
  created_at : Option String := none
  deleted : Bool := false
deriving DecidableEq

structure RawQuestion where
  id : String
  text : Option String := none
  qtype : Option String := none   -- the JSON key "type"
  results : Option (List RawAnswer) := none
deriving DecidableEq

structure SurveyData where
  questions : Option (List RawQuestion)
deriving DecidableEq

inductive RoleLevel where
  | FOUNDER_CSUITE
  | VP_DIRECTOR_HEAD
  | GROUP_PM_MANAGER
  | IC
deriving DecidableEq

structure SurveyConfig where
  id : String := ""
  title : String := ""
  slug : String := ""
  audience : String := ""
  subtitle_template : String := ""
  scale_description : String := ""
  scale_labels : List (Nat × String) := []
  positive_threshold : Nat := 4
  negative_threshold : Nat := 2
  survey_tool : String := "Polly survey"
deriving DecidableEq

structure Respondent where
  user_id : String
  rating : Option Nat := none
  open_text : Option String := none
  job_title : Option String := none
  role_level : RoleLevel := RoleLevel.IC
  company_size : Option String := none
  tenure : Option String := none
  voted_at : Option String := none
deriving DecidableEq

/-! ### `ingest.py` -/

/-- The matching answers counted by `_is_rating_question`
(`re.match(r"^\d+\s+[-–—]\s+\S", r.get("text", "").strip())`). -/
def countRatingMatches (responses : List RawAnswer) : Nat :=
  (responses.filter (fun r => ratingDashPat (trimChars (r.text.getD "").data))).length

/-- `_is_rating_question`.  The Python comparison is
`matches > len(responses) * 0.8`; for the integer operand sizes arising here
the float product `len * 0.8` rounds to the exact value `len * 4/5`, so the
comparison is `5 * matches > 4 * len`. -/
def isRatingQuestion (responses : List RawAnswer) : Bool :=
  if responses.isEmpty then false
  else decide (5 * countRatingMatches responses > 4 * responses.length)

/-- `_FOUNDER_CSUITE_PATTERNS` (each literal wrapped in `\b…\b`). -/
def founderCsuitePatternList : List String :=
  ["founder", "co-founder", "cofounder",
   "ceo", "cto", "coo", "cpo", "cso", "cmo", "cfo", "cro",
   "chief", "svp", "owner"]

/-- `_VP_DIRECTOR_HEAD_PATTERNS`. -/
def vpDirectorHeadPatternList : List String :=
  ["vp", "vice president", "director", "head of", "head,"]

/-- `_GROUP_PM_PATTERNS`. -/
def groupPmPatternList : List String :=
  ["group pm", "group product", "manager of product"]

/-- Python `str.replace` with a non-empty pattern. -/
def replaceSub (pat rep cs : List Char) : List Char :=
  match pat with
  | [] => cs
  | p :: ps => replaceAll p ps rep cs

/-- `categorize_role`. -/
def categorizeRole (title : Option String) : RoleLevel :=
  match title with
  | none => RoleLevel.IC
  | some s =>
    if s.data.isEmpty then RoleLevel.IC
    else
      let t := trimChars (lowerChars s.data)
      let tCheck := replaceSub "product owner".data "product_owner_excluded".data t
      if searchAnyWB founderCsuitePatternList tCheck then RoleLevel.FOUNDER_CSUITE
      else if searchAnyWB vpDirectorHeadPatternList tCheck then RoleLevel.VP_DIRECTOR_HEAD
      else if searchAnyWB groupPmPatternList tCheck then RoleLevel.GROUP_PM_MANAGER
      else if searchSeniorManagerProduct false tCheck then RoleLevel.GROUP_PM_MANAGER
      else RoleLevel.IC

/-- `_COMPANY_SIZE_MAP`. -/
def companySizeMap : List (String × String) :=
  [("just me", "Just me"), ("2-10", "2–10"), ("11-50", "11–50"),
   ("51-250", "51–250"), ("251-1000", "251–1,000"),
   ("1001-5000", "1,001–5,000"), ("5001+", "5,001+")]

/-- `_TENURE_MAP`. -/
def tenureMap : List (String × String) :=
  [("less than a year", "Less than 1 year"), ("1-2 years", "1–2 years"),
   ("3-5 years", "3–5 years"), ("6-10 years", "6–10 years"),
   ("11+ years", "11+ years")]

def lookupTable (m : List (String × String)) (k : List Char) : Option String :=
  (m.find? (fun p => p.1.data == k)).map (fun p => p.2)

/-- `_normalize_company_size` (`MAP.get(raw.lower().strip(), raw)`). -/
def normalizeCompanySize (raw : String) : String :=
  match lookupTable companySizeMap (trimChars (lowerChars raw.data)) with
  | some v => v
  | none => raw

/-- `_normalize_tenure`. -/
def normalizeTenure (raw : String) : String :=
  match lookupTable tenureMap (trimChars (lowerChars raw.data)) with
  | some v => v
  | none => raw

/-- `_extract_rating`. -/
def extractRating (text : String) : Option Nat :=
  let s := trimChars text.data
  match looseDashPat s with
  | some n => some n
  | none => if isDigitStr s then some (digitsToNat s) else none

/-- The role → question-id mapping built by `_identify_questions`. -/
structure RoleMap where
  rating : Option String := none
  open_text : Option String := none
  title : Option String := none
  company_size : Option String := none
  tenure : Option String := none
deriving DecidableEq

/-- One iteration of the `_identify_questions` loop.  Note that the rating
check inspects `q.get("results", [])` *without* filtering deleted answers. -/
def identifyStep (m : RoleMap) (q : RawQuestion) : RoleMap :=
  let qText := lowerChars (q.text.getD "").data
  let qType := q.qtype.getD ""
  let m1 := if m.rating.isNone && (qType == "multiple_choice")
               && isRatingQuestion (q.results.getD [])
            then { m with rating := some q.id } else m
  let m2 := if m1.open_text.isNone && (qType == "open_ended")
               && !(containsSub "title".data qText
                    || containsSub "current role".data qText
                    || containsSub "your role".data qText)
            then { m1 with open_text := some q.id } else m1
  let m3 := if m2.title.isNone && (qType == "open_ended")
               && (containsSub "title".data qText
                   || containsSub "current title".data qText
                   || containsSub "your role".data qText)
            then { m2 with title := some q.id } else m2
  let m4 := if m3.company_size.isNone && containsSub "size".data qText
               && containsSub "company".data qText
            then { m3 with company_size := some q.id } else m3
  if m4.tenure.isNone && (containsSub "how long".data qText
                          || containsSub "tenure".data qText)
  then { m4 with tenure := some q.id } else m4

/-- `_identify_questions`. -/
def identifyQuestions (qs : List RawQuestion) : RoleMap :=
  qs.foldl identifyStep {}

/-! ### The per-question, per-user answer lookups of `ingest` -/

abbrev UserLookup := List (String × RawAnswer)
abbrev QLookup := List (String × UserLookup)

/-- Python `dict` assignment `m[k] = v`: overwrite in place, keeping the
key's original insertion position; new keys go to the end. -/
def upsert {α : Type} (m : List (String × α)) (k : String) (v : α) :
    List (String × α) :=
  match m with
  | [] => [(k, v)]
  | (k', v') :: rest =>
      if k' = k then (k', v) :: rest else (k', v') :: upsert rest k v

def alookup {α : Type} : List (String × α) → String → Option α
  | [], _ => none
  | (k', v) :: rest, k => if k' = k then some v else alookup rest k

def keysOf {α : Type} (m : List (String × α)) : List String := m.map (fun p => p.1)

/-- The inner loop of `ingest` building `by_user` for one question: deleted
answers are skipped, a missing `user_id` on a surviving answer is a
`KeyError`, and a later answer by the same user overwrites an earlier one. -/
def byUserAux (acc : UserLookup) : List RawAnswer → Except String UserLookup
  | [] => .ok acc
  | r :: rest =>
    if r.deleted then byUserAux acc rest
    else match r.user_id with
      | none => .error "KeyError: user_id"
      | some uid => byUserAux (upsert acc uid r) rest

def byUser (rs : List RawAnswer) : Except String UserLookup := byUserAux [] rs

/-- The `q_results` dict of `ingest`: question id → per-user lookup. -/
def qResultsAux (acc : QLookup) : List RawQuestion → Except String QLookup
  | [] => .ok acc
  | q :: rest =>
    match byUser (q.results.getD []) with
    | .error e => .error e
    | .ok m => qResultsAux (upsert acc q.id m) rest

def qResults (qs : List RawQuestion) : Except String QLookup := qResultsAux [] qs

/-- The guarded lookup `if role_q and uid in q_results.get(role_q, {})` used
by every field block of `ingest` (an empty-string question id is falsy in
Python and skips the block). -/
def roleAnswer (qr : QLookup) (role : Option String) (uid : String) :
    Option RawAnswer :=
  match role with
  | none => none
  | some q =>
    if q = "" then none
    else match alookup qr q with
      | some m => alookup m uid
      | none => none

/-- `result["text"]` (a direct access: `KeyError` when absent). -/
def getTextE (r : RawAnswer) : Except String String :=
  match r.text with
  | some t => .ok t
  | none => .error "KeyError: text"

/-- The cohort fallback: `q_results.get(q_map.get("rating", ""), {})`. -/
def cohortFallback (m : RoleMap) (qr : QLookup) : List String :=
  keysOf ((alookup qr (m.rating.getD "")).getD [])

/-- The cohort of `ingest`:
`if tenure_q_id and tenure_q_id in q_results: … else: fallback`. -/
def cohortIds (m : RoleMap) (qr : QLookup) : List String :=
  match m.tenure with
  | some tid =>
    if tid ≠ "" then
      match alookup qr tid with
      | some byu => keysOf byu
      | none => cohortFallback m qr
    else cohortFallback m qr
  | none => cohortFallback m qr

/-- The rating / `voted_at` block of the cohort loop
(`r.rating = _extract_rating(result["text"])`, timestamp from
`result.get("created_at")` when truthy). -/
def ratingBlock (qr : QLookup) (rq : Option String) (uid : String) :
    Except String (Option Nat × Option String) :=
  match roleAnswer qr rq uid with
  | some result => do
      let t ← getTextE result
      let voted := match result.created_at with
        | some ts => if ts = "" then none else some ts
        | none => none
      pure (extractRating t, voted)
  | none => pure (none, none)

/-- The open-text block (`text = …["text"].strip(); if text: …`). -/
def openTextBlock (qr : QLookup) (oq : Option String) (uid : String) :
    Except String (Option String) :=
  match roleAnswer qr oq uid with
  | some result => do
      let t := trimChars (← getTextE result).data
      pure (if t.isEmpty then none else some (String.mk t))
  | none => pure none

/-- The job-title block (`job_title` plus `role_level = categorize_role`). -/
def titleBlock (qr : QLookup) (tq : Option String) (uid : String) :
    Except String (Option String × Option RoleLevel) :=
  match roleAnswer qr tq uid with
  | some result => do
      let t := trimChars (← getTextE result).data
      if t.isEmpty then pure (none, none)
      else pure (some (String.mk t), some (categorizeRole (some (String.mk t))))
  | none => pure (none, none)

/-- The company-size block. -/
def sizeBlock (qr : QLookup) (sq : Option String) (uid : String) :
    Except String (Option String) :=
  match roleAnswer qr sq uid with
  | some result => do
      pure (some (normalizeCompanySize (← getTextE result)))
  | none => pure none

/-- The tenure block. -/
def tenureBlock (qr : QLookup) (tq : Option String) (uid : String) :
    Except String (Option String) :=
  match roleAnswer qr tq uid with
  | some result => do
      pure (some (normalizeTenure (← getTextE result)))
  | none => pure none

/-- The body of the `for uid in cohort_user_ids` loop of `ingest`, building
one `Respondent` (the `role_level is None → IC` default included). -/
def buildRespondent (m : RoleMap) (qr : QLookup) (uid : String) :
    Except String Respondent := do
  let rv ← ratingBlock qr m.rating uid
  let openText ← openTextBlock qr m.open_text uid
  let tl ← titleBlock qr m.title uid
  let csz ← sizeBlock qr m.company_size uid
  let ten ← tenureBlock qr m.tenure uid
  pure { user_id := uid, rating := rv.1, voted_at := rv.2,
         open_text := openText, job_title := tl.1,
         role_level := tl.2.getD RoleLevel.IC,
         company_size := csz, tenure := ten }

def mapExcept {α β : Type} (f : α → Except String β) :
    List α → Except String (List β)
  | [] => .ok []
  | x :: xs =>
    match f x with
    | .error e => .error e
    | .ok y =>
      match mapExcept f xs with
      | .error e => .error e
      | .ok ys => .ok (y :: ys)

/-- `ingest` after the role map has been fixed: build `q_results`, compute
the cohort, and build one `Respondent` per cohort member. -/
def ingestWithMap (m : RoleMap) (qs : List RawQuestion) :
    Except String (List Respondent) :=
  match qResults qs with
  | .error e => .error e
  | .ok qr => mapExcept (buildRespondent m qr) (cohortIds m qr)

/-- `ingest(survey_data, config)`.  (`config` is accepted but, as in the
source, never read.) -/
def ingest (survey_data : SurveyData) (config : SurveyConfig) :
    Except String (List Respondent) :=
  let questions := survey_data.questions.getD []
  ingestWithMap (identifyQuestions questions) questions

/-! ### Removing soft-deleted answers (for the deleted-exclusion claim) -/

def stripAnswers (rs : List RawAnswer) : List RawAnswer :=
  rs.filter (fun r => !r.deleted)

def stripQuestion (q : RawQuestion) : RawQuestion :=
  { q with results := some (stripAnswers (q.results.getD [])) }

def stripDeleted (d : SurveyData) : SurveyData :=
  { questions := d.questions.map (fun qs => qs.map stripQuestion) }

/-! ### `core.py`: the distribution builder

Python's `round(x, 1)` rounds half-to-even at one decimal place; it is
modelled exactly over `ℚ`. -/

def roundHalfEven (x : ℚ) : ℤ :=
  let f := x.floor
  if x - f < 1/2 then f
  else if (1 : ℚ)/2 < x - f then f + 1
  else if f % 2 = 0 then f else f + 1

/-- Python `round(x, 1)`. -/
def round1 (x : ℚ) : ℚ := (roundHalfEven (x * 10) : ℚ) / 10

/-- `short_choice` (identical to `cli._short_choice`). -/
def shortChoice (text : String) : String :=
  match splitOnce " — ".data text.data with
  | some (before, after) =>
      let b := trimChars before
      if isDigitStr b then String.mk (trimChars after) else String.mk b
  | none =>
  match splitOnce " – ".data text.data with
  | some (before, after) =>
      let b := trimChars before
      if isDigitStr b then String.mk (trimChars after) else String.mk b
  | none =>
  match nLabelPat text.data with
  | some g2 =>
      if !(isDigitStr ((trimChars g2).filter (fun c => c ≠ '+'))) then
        String.mk (trimChars g2)
      else String.mk (trimChars text.data)
  | none => String.mk (trimChars text.data)

/-- `_is_ordinal_choices`.  `numeric >= len * 0.6` is exact here:
`5 * numeric ≥ 3 * len`. -/
def isOrdinalChoices (choiceTexts : List String) : Bool :=
  if choiceTexts.length < 3 then false
  else decide (5 * (choiceTexts.filter
          (fun t => (ordinalSortKey t.data).isSome)).length
        ≥ 3 * choiceTexts.length)

/-- `collections.Counter` over the answer texts: an association list in
first-occurrence order. -/
def bump : List (String × Nat) → String → List (String × Nat)
  | [], t => [(t, 1)]
  | (s, c) :: rest, t =>
      if s = t then (s, c + 1) :: rest else (s, c) :: bump rest t

def tally (ts : List String) : List (String × Nat) := ts.foldl bump []

/-- `Counter.most_common()`: stable sort by count, descending (ties keep
first-occurrence order). -/
def insDescByCount (x : String × Nat) : List (String × Nat) → List (String × Nat)
  | [] => [x]
  | y :: ys => if y.2 ≤ x.2 then x :: y :: ys else y :: insDescByCount x ys

def sortDescByCount : List (String × Nat) → List (String × Nat)
  | [] => []
  | x :: xs => insDescByCount x (sortDescByCount xs)

/-- Python `list.sort(key=...)`: stable, ascending. -/
def insAscBy {α : Type} (key : α → Nat) (x : α) : List α → List α
  | [] => [x]
  | y :: ys => if key x ≤ key y then x :: y :: ys else y :: insAscBy key x ys

def sortAscBy {α : Type} (key : α → Nat) : List α → List α
  | [] => []
  | x :: xs => insAscBy key x (sortAscBy key xs)

/-- Python `max(iterable, default=d)`. -/
def pyMaxQ : List ℚ → ℚ → ℚ
  | [], d => d
  | x :: xs, _ => xs.foldl max x

/-- A choice entry as emitted (after `del c["_raw"]`): `rating` is present
exactly on rating questions. -/
structure ChoiceEntry where
  label : String
  count : Nat
  pct : ℚ
  rating : Option Nat
  bar_width : ℚ
deriving DecidableEq

/-- A choice entry while still carrying `_raw` (before sorting/deletion). -/
structure PreEntry where
  label : String
  count : Nat
  pct : ℚ
  rating : Option Nat
  raw : String
deriving DecidableEq

structure QuestionDist where
  question : String
  is_rating : Bool
  is_multiselect : Bool
  n_respondents : Nat
  choices : List ChoiceEntry
deriving DecidableEq

/-- One entry of the `for choice_text, count in counts.most_common()` loop. -/
def mkPreEntry (isRat : Bool) (uniqueUsers : Nat) (p : String × Nat) : PreEntry :=
  { label := shortChoice p.1, count := p.2,
    pct := if uniqueUsers ≠ 0 then round1 ((p.2 : ℚ) / (uniqueUsers : ℚ) * 100)
           else 0,
    rating := if isRat then some ((ratingKeyPat p.1.data).getD 0) else none,
    raw := p.1 }

/-- The sorting step of `build_question_distributions`: ascending by rating
for rating questions, ascending by leading integer for ordinal choice sets,
otherwise the `most_common` (descending-frequency) order is kept. -/
def sortChoices (isRat : Bool) (pres : List PreEntry) : List PreEntry :=
  if isRat then sortAscBy (fun e => e.rating.getD 0) pres
  else if isOrdinalChoices (pres.map (fun e => e.raw)) then
    sortAscBy (fun e => (ordinalSortKey e.raw.data).getD 0) pres
  else pres

/-- `del c["_raw"]` and the `bar_width` assignment. -/
def finalizeEntry (maxPct : ℚ) (e : PreEntry) : ChoiceEntry :=
  { label := e.label, count := e.count, pct := e.pct, rating := e.rating,
    bar_width := if 0 < maxPct then round1 (e.pct / maxPct * 100) else 0 }

/-- One iteration of the question loop of `build_question_distributions`
(`none` when the question is skipped by a `continue`). -/
def buildDistForQuestion (q : RawQuestion) : Except String (Option QuestionDist) :=
  if q.qtype.getD "" ≠ "multiple_choice" then .ok none
  else
    let responses := (q.results.getD []).filter (fun r => !r.deleted)
    if responses.isEmpty then .ok none
    else
      match mapExcept (fun r => match r.user_id with
          | some u => Except.ok u
          | none => Except.error "KeyError: user_id") responses with
      | .error e => .error e
      | .ok uids =>
        match mapExcept getTextE responses with
        | .error e => .error e
        | .ok texts =>
          let uniqueUsers := uids.dedup.length
          let isMulti := decide (uniqueUsers < responses.length)
          let isRat := isRatingQuestion responses
          let pres := (sortDescByCount (tally texts)).map (mkPreEntry isRat uniqueUsers)
          let sorted := sortChoices isRat pres
          let maxPct := pyMaxQ (sorted.map (fun e => e.pct)) 1
          .ok (some { question := q.text.getD "", is_rating := isRat,
                      is_multiselect := isMulti, n_respondents := uniqueUsers,
                      choices := sorted.map (finalizeEntry maxPct) })

/-- `core.build_question_distributions`. -/
def buildQuestionDistributions (survey_data : SurveyData) :
    Except String (List QuestionDist) :=
  match mapExcept buildDistForQuestion (survey_data.questions.getD []) with
  | .error e => .error e
  | .ok opts => .ok (opts.filterMap id)

/-! ### `cli.py`: the private duplicates of the distribution builder

`cli._short_choice`, `cli._ordinal_sort_key`, `cli._is_ordinal_choices` and
`cli._build_question_distributions` are translated separately from their
own source lines (they do not share code with `core.py` in the repository
beyond importing `_is_rating_question` / `_extract_rating` from
`ingest.py`). -/

/-- `cli._ordinal_sort_key` (`^(\d+)` on the stripped text). -/
def cliOrdinalSortKey (s : List Char) : Option Nat :=
  let (ds, _) := (trimChars s).span Char.isDigit
  if ds.isEmpty then none else some (digitsToNat ds)

/-- `cli._short_choice`. -/
def cliShortChoice (text : String) : String :=
  match splitOnce " — ".data text.data with
  | some (before, after) =>
      let b := trimChars before
      if isDigitStr b then String.mk (trimChars after) else String.mk b
  | none =>
  match splitOnce " – ".data text.data with
  | some (before, after) =>
      let b := trimChars before
      if isDigitStr b then String.mk (trimChars after) else String.mk b
  | none =>
  match nLabelPat text.data with
  | some g2 =>
      if !(isDigitStr ((trimChars g2).filter (fun c => c ≠ '+'))) then
        String.mk (trimChars g2)
      else String.mk (trimChars text.data)
  | none => String.mk (trimChars text.data)

/-- `cli._is_ordinal_choices`. -/
def cliIsOrdinalChoices (choiceTexts : List String) : Bool :=
  if choiceTexts.length < 3 then false
  else decide (5 * (choiceTexts.filter
          (fun t => (cliOrdinalSortKey t.data).isSome)).length
        ≥ 3 * choiceTexts.length)

def cliMkPreEntry (isRat : Bool) (uniqueUsers : Nat) (p : String × Nat) : PreEntry :=
  { label := cliShortChoice p.1, count := p.2,
    pct := if uniqueUsers ≠ 0 then round1 ((p.2 : ℚ) / (uniqueUsers : ℚ) * 100)
           else 0,
    rating := if isRat then some ((ratingKeyPat p.1.data).getD 0) else none,
    raw := p.1 }

def cliSortChoices (isRat : Bool) (pres : List PreEntry) : List PreEntry :=
  if isRat then sortAscBy (fun e => e.rating.getD 0) pres
  else if cliIsOrdinalChoices (pres.map (fun e => e.raw)) then
    sortAscBy (fun e => (cliOrdinalSortKey e.raw.data).getD 0) pres
  else pres

def cliBuildDistForQuestion (q : RawQuestion) : Except String (Option QuestionDist) :=
  if q.qtype.getD "" ≠ "multiple_choice" then .ok none
  else
    let responses := (q.results.getD []).filter (fun r => !r.deleted)
    if responses.isEmpty then .ok none
    else
      match mapExcept (fun r => match r.user_id with
          | some u => Except.ok u
          | none => Except.error "KeyError: user_id") responses with
      | .error e => .error e
      | .ok uids =>
        match mapExcept getTextE responses with
        | .error e => .error e
        | .ok texts =>
          let uniqueUsers := uids.dedup.length
          let isMulti := decide (uniqueUsers < responses.length)
          let isRat := isRatingQuestion responses
          let pres := (sortDescByCount (tally texts)).map (cliMkPreEntry isRat uniqueUsers)
          let sorted := cliSortChoices isRat pres
          let maxPct := pyMaxQ (sorted.map (fun e => e.pct)) 1
          .ok (some { question := q.text.getD "", is_rating := isRat,
                      is_multiselect := isMulti, n_respondents := uniqueUsers,
                      choices := sorted.map (finalizeEntry maxPct) })

/-- `cli._build_question_distributions`. -/
def cliBuildQuestionDistributions (survey_data : SurveyData) :
    Except String (List QuestionDist) :=
  match mapExcept cliBuildDistForQuestion (survey_data.questions.getD []) with
  | .error e => .error e
  | .ok opts => .ok (opts.filterMap id)

/-! ### Specification-side definitions

`answerersOf`/`claimCohort` word the completion-cohort specification: the
user ids with a non-deleted answer to the question a role was mapped to
(the question the classifier matched, i.e. the first question bearing that
id), trying `tenure` first, then `rating`, else empty. -/

def answerersOf (qs : List RawQuestion) (qid : String) : List String :=
  match qs.find? (fun q => q.id == qid) with
  | some q => ((q.results.getD []).filter (fun r => !r.deleted)).filterMap
      (fun r => r.user_id)
  | none => []

def claimCohort (qs : List RawQuestion) : List String :=
  match (identifyQuestions qs).tenure with
  | some tid => answerersOf qs tid
  | none =>
    match (identifyQuestions qs).rating with
    | some rid => answerersOf qs rid
    | none => []

end LennysPolls

deriving instance DecidableEq for Except

namespace LennysPolls

/-! ### Lemmas: association lists, `byUser` and `qResults` -/

theorem alookup_upsert {α : Type} (m : List (String × α)) (k : String) (v : α)
    (k' : String) :
    alookup (upsert m k v) k' = if k = k' then some v else alookup m k' := by
  induction m with
  | nil => simp [upsert, alookup]
  | cons p rest ih =>
      obtain ⟨pk, pv⟩ := p
      by_cases hpk : pk = k
      · subst hpk
        by_cases hk' : pk = k' <;> simp [upsert, alookup, hk']
      · by_cases hk' : pk = k'
        · subst hk'
          simp [upsert, alookup, hpk, ih]
          rw [if_neg (fun h => hpk h.symm)]
        · simp [upsert, alookup, hpk, hk', ih]

theorem mem_keysOf_upsert {α : Type} (m : List (String × α)) (k : String) (v : α)
    (u : String) :
    u ∈ keysOf (upsert m k v) ↔ u ∈ keysOf m ∨ u = k := by
  induction m with
  | nil => simp [upsert, keysOf]
  | cons p rest ih =>
      obtain ⟨pk, pv⟩ := p
      by_cases hpk : pk = k
      · subst hpk
        simp [upsert, keysOf]
        tauto
      · simp [upsert, keysOf, hpk] at ih ⊢
        tauto

theorem keysOf_upsert_nodup {α : Type} (m : List (String × α)) (k : String)
    (v : α) (h : (keysOf m).Nodup) : (keysOf (upsert m k v)).Nodup := by
  induction m with
  | nil => simp [upsert, keysOf]
  | cons p rest ih =>
      obtain ⟨pk, pv⟩ := p
      simp only [keysOf, List.map_cons, List.nodup_cons] at h
      by_cases hpk : pk = k
      · subst hpk
        simpa [upsert, keysOf] using h
      · have := ih h.2
        simp only [upsert, hpk, if_neg, ite_false, keysOf, List.map_cons,
          List.nodup_cons]
        refine ⟨?_, this⟩
        intro hmem
        rcases (mem_keysOf_upsert rest k v pk).1 hmem with h1 | h1
        · exact h.1 h1
        · exact hpk h1

theorem mem_upsert {α : Type} (m : List (String × α)) (k : String) (v : α)
    (kv : String × α) (h : kv ∈ upsert m k v) : kv ∈ m ∨ kv = (k, v) := by
  induction m with
  | nil => simp [upsert] at h; simp [h]
  | cons p rest ih =>
      obtain ⟨pk, pv⟩ := p
      by_cases hpk : pk = k
      · subst hpk
        simp [upsert] at h
        rcases h with h | h
        · right; simp [h]
        · left; simp [h]
      · simp [upsert, hpk] at h
        rcases h with h | h
        · left; simp [h]
        · rcases ih h with h1 | h1
          · left; simp [h1]
          · right; exact h1

theorem alookup_mem {α : Type} (m : List (String × α)) (k : String) (v : α)
    (h : alookup m k = some v) : (k, v) ∈ m := by
  induction m with
  | nil => simp [alookup] at h
  | cons p rest ih =>
      obtain ⟨pk, pv⟩ := p
      by_cases hpk : pk = k
      · subst hpk
        simp [alookup] at h
        simp [h]
      · simp [alookup, hpk] at h
        simp [ih h]

def orElseO {α : Type} : Option α → Option α → Option α
  | some a, _ => some a
  | none, b => b

theorem orElseO_none {α : Type} (x : Option α) : orElseO x none = x := by
  cases x <;> simp [orElseO]

theorem stripAnswers_cons (r : RawAnswer) (rs : List RawAnswer) :
    stripAnswers (r :: rs) =
      if r.deleted then stripAnswers rs else r :: stripAnswers rs := by
  by_cases hd : r.deleted <;> simp [stripAnswers, List.filter_cons, hd]

/-- Deleted answers never reach the per-question lookup: building it from
the pre-filtered list gives the same result. -/
theorem byUserAux_strip (rs : List RawAnswer) :
    ∀ acc : UserLookup, byUserAux acc (stripAnswers rs) = byUserAux acc rs := by
  induction rs with
  | nil => intro acc; simp [stripAnswers]
  | cons r rest ih =>
      intro acc
      rw [stripAnswers_cons]
      by_cases hd : r.deleted
      · simp only [hd, if_true, byUserAux]
        exact ih acc
      · simp only [hd, if_false, byUserAux]
        cases r.user_id with
        | none => rfl
        | some uid => exact ih _

/-- Last-one-wins: the lookup built by `ingest`'s `by_user[r["user_id"]] = r`
loop maps each user to the *last* of their non-deleted answers. -/
theorem byUserAux_last (uid : String) : ∀ (rs : List RawAnswer)
    (acc m : UserLookup), byUserAux acc rs = .ok m →
    alookup m uid =
      orElseO ((rs.filter
          (fun r => !r.deleted && (r.user_id == some uid))).getLast?)
        (alookup acc uid) := by
  intro rs
  induction rs with
  | nil =>
      intro acc m h
      simp [byUserAux] at h
      subst h
      simp [orElseO]
  | cons r rest ih =>
      intro acc m h
      simp only [byUserAux] at h
      by_cases hd : r.deleted
      · rw [if_pos hd] at h
        rw [List.filter_cons_of_neg (by simp [hd])]
        exact ih acc m h
      · rw [if_neg hd] at h
        cases hu : r.user_id with
        | none => rw [hu] at h; exact absurd h (by simp)
        | some u =>
            rw [hu] at h
            have hrec := ih _ m h
            by_cases huid : u = uid
            · subst huid
              rw [List.filter_cons_of_pos (by simp [hd, hu])]
              rw [hrec, alookup_upsert, if_pos rfl]
              cases hfl : (rest.filter
                  (fun r => !r.deleted && (r.user_id == some u))) with
              | nil => simp [orElseO]
              | cons x xs =>
                  rw [List.getLast?_cons_cons]
                  have hsome : (x :: xs).getLast? =
                      some ((x :: xs).getLast (by simp)) :=
                    List.getLast?_eq_getLast _ (by simp)
                  rw [hsome]
                  simp [orElseO]
            · rw [List.filter_cons_of_neg (by simp [hu, huid])]
              rw [hrec, alookup_upsert, if_neg huid]

theorem byUserAux_keys (uid : String) : ∀ (rs : List RawAnswer)
    (acc m : UserLookup), byUserAux acc rs = .ok m →
    (uid ∈ keysOf m ↔
      uid ∈ keysOf acc ∨ ∃ r ∈ rs, r.deleted = false ∧ r.user_id = some uid) := by
  intro rs
  induction rs with
  | nil =>
      intro acc m h
      simp [byUserAux] at h
      subst h
      simp
  | cons r rest ih =>
      intro acc m h
      simp only [byUserAux] at h
      by_cases hd : r.deleted
      · rw [if_pos hd] at h
        rw [ih acc m h]
        constructor
        · rintro (h1 | h1)
          · exact Or.inl h1
          · exact Or.inr ⟨h1.choose, List.mem_cons_of_mem _ h1.choose_spec.1,
              h1.choose_spec.2⟩
        · rintro (h1 | ⟨r', hr', hprop⟩)
          · exact Or.inl h1
          · rcases List.mem_cons.1 hr' with h2 | h2
            · subst h2; rw [hprop.1] at hd; simp at hd
            · exact Or.inr ⟨r', h2, hprop⟩
      · rw [if_neg hd] at h
        cases hu : r.user_id with
        | none => rw [hu] at h; exact absurd h (by simp)
        | some u =>
            rw [hu] at h
            rw [ih _ m h]
            rw [mem_keysOf_upsert]
            constructor
            · rintro ((h1 | h1) | h1)
              · exact Or.inl h1
              · exact Or.inr ⟨r, List.mem_cons_self _ _,
                  by simp [hd], by rw [hu, h1]⟩
              · exact Or.inr ⟨h1.choose, List.mem_cons_of_mem _ h1.choose_spec.1,
                  h1.choose_spec.2⟩
            · rintro (h1 | ⟨r', hr', hprop⟩)
              · exact Or.inl (Or.inl h1)
              · rcases List.mem_cons.1 hr' with h2 | h2
                · subst h2
                  rw [hu] at hprop
                  exact Or.inl (Or.inr (by simpa using hprop.2.symm))
                · exact Or.inr ⟨r', h2, hprop⟩

theorem byUserAux_nodup : ∀ (rs : List RawAnswer) (acc m : UserLookup),
    (keysOf acc).Nodup → byUserAux acc rs = .ok m → (keysOf m).Nodup := by
  intro rs
  induction rs with
  | nil =>
      intro acc m hacc h
      simp [byUserAux] at h
      subst h
      exact hacc
  | cons r rest ih =>
      intro acc m hacc h
      simp only [byUserAux] at h
      by_cases hd : r.deleted
      · rw [if_pos hd] at h
        exact ih acc m hacc h
      · rw [if_neg hd] at h
        cases hu : r.user_id with
        | none => rw [hu] at h; exact absurd h (by simp)
        | some u =>
            rw [hu] at h
            exact ih _ m (keysOf_upsert_nodup acc u r hacc) h

theorem byUserAux_ok : ∀ (rs : List RawAnswer) (acc : UserLookup),
    (∀ r ∈ rs, r.deleted = false → r.user_id ≠ none) →
    ∃ m, byUserAux acc rs = .ok m := by
  intro rs
  induction rs with
  | nil => intro acc _; exact ⟨acc, rfl⟩
  | cons r rest ih =>
      intro acc hwf
      simp only [byUserAux]
      by_cases hd : r.deleted
      · rw [if_pos hd]
        exact ih acc (fun r' hr' => hwf r' (List.mem_cons_of_mem _ hr'))
      · rw [if_neg hd]
        cases hu : r.user_id with
        | none =>
            exact absurd hu
              (hwf r (List.mem_cons_self _ _) (by simpa using hd))
        | some u =>
            exact ih _ (fun r' hr' => hwf r' (List.mem_cons_of_mem _ hr'))

theorem byUserAux_error : ∀ (rs : List RawAnswer) (acc : UserLookup),
    (∃ r ∈ rs, r.deleted = false ∧ r.user_id = none) →
    ∃ e, byUserAux acc rs = .error e := by
  intro rs
  induction rs with
  | nil => rintro acc ⟨r, hr, _⟩; simp at hr
  | cons r rest ih =>
      rintro acc ⟨r', hr', hdel, huid⟩
      simp only [byUserAux]
      rcases List.mem_cons.1 hr' with h2 | h2
      · subst h2
        rw [if_neg (by simp [hdel]), huid]
        exact ⟨_, rfl⟩
      · by_cases hd : r.deleted
        · rw [if_pos hd]
          exact ih acc ⟨r', h2, hdel, huid⟩
        · rw [if_neg hd]
          cases hu : r.user_id with
          | none => exact ⟨_, rfl⟩
          | some u => exact ih _ ⟨r', h2, hdel, huid⟩

/-- Every value stored by the `by_user` loop is one of the non-deleted input
answers (or came from the accumulator). -/
theorem byUserAux_values : ∀ (rs : List RawAnswer) (acc m : UserLookup),
    byUserAux acc rs = .ok m → ∀ kv ∈ m,
      kv ∈ acc ∨ (kv.2 ∈ rs ∧ kv.2.deleted = false) := by
  intro rs
  induction rs with
  | nil =>
      intro acc m h kv hkv
      simp [byUserAux] at h
      subst h
      exact Or.inl hkv
  | cons r rest ih =>
      intro acc m h kv hkv
      simp only [byUserAux] at h
      by_cases hd : r.deleted
      · rw [if_pos hd] at h
        rcases ih acc m h kv hkv with h1 | h1
        · exact Or.inl h1
        · exact Or.inr ⟨List.mem_cons_of_mem _ h1.1, h1.2⟩
      · rw [if_neg hd] at h
        cases hu : r.user_id with
        | none => rw [hu] at h; exact absurd h (by simp)
        | some u =>
            rw [hu] at h
            rcases ih _ m h kv hkv with h1 | h1
            · rcases mem_upsert acc u r kv h1 with h2 | h2
              · exact Or.inl h2
              · subst h2
                exact Or.inr ⟨List.mem_cons_self _ _, by simpa using hd⟩
            · exact Or.inr ⟨List.mem_cons_of_mem _ h1.1, h1.2⟩

/-- What `q_results[qid]` holds: the `by_user` lookup of the *last* question
in the document bearing that id (later questions with a duplicate id
overwrite earlier ones in the dict). -/
theorem qResultsAux_lookup (tid : String) : ∀ (qs : List RawQuestion)
    (acc qr : QLookup), qResultsAux acc qs = .ok qr →
    alookup qr tid =
      match (qs.filter (fun q => q.id == tid)).getLast? with
      | some q => (byUser (q.results.getD [])).toOption
      | none => alookup acc tid := by
  intro qs
  induction qs with
  | nil =>
      intro acc qr h
      simp [qResultsAux] at h
      subst h
      simp
  | cons q rest ih =>
      intro acc qr h
      simp only [qResultsAux] at h
      cases hbu : byUser (q.results.getD []) with
      | error e => rw [hbu] at h; exact absurd h (by simp)
      | ok mq =>
          rw [hbu] at h
          have hrec := ih _ qr h
          by_cases hid : q.id = tid
          · rw [List.filter_cons_of_pos (by simp [hid])]
            cases hfl : (rest.filter (fun q' => q'.id == tid)) with
            | nil =>
                rw [hfl] at hrec
                simp only [List.getLast?_nil] at hrec
                rw [hrec, alookup_upsert, if_pos hid]
                simp [hbu, Except.toOption]
            | cons x xs =>
                rw [hfl] at hrec
                rw [List.getLast?_cons_cons]
                exact hrec
          · rw [List.filter_cons_of_neg (by simp [hid])]
            cases hfl : (rest.filter (fun q' => q'.id == tid)) with
            | nil =>
                rw [hfl] at hrec
                simp only [List.getLast?_nil] at hrec
                rw [hrec, alookup_upsert, if_neg hid]
                simp
            | cons x xs =>
                rw [hfl] at hrec
                exact hrec

theorem qResultsAux_ok_byUser : ∀ (qs : List RawQuestion) (acc qr : QLookup),
    qResultsAux acc qs = .ok qr →
    ∀ q ∈ qs, ∃ m, byUser (q.results.getD []) = .ok m := by
  intro qs
  induction qs with
  | nil => intro acc qr _ q hq; simp at hq
  | cons q0 rest ih =>
      intro acc qr h q hq
      simp only [qResultsAux] at h
      cases hbu : byUser (q0.results.getD []) with
      | error e => rw [hbu] at h; exact absurd h (by simp)
      | ok mq =>
          rw [hbu] at h
          rcases List.mem_cons.1 hq with h2 | h2
          · subst h2; exact ⟨mq, hbu⟩
          · exact ih _ qr h q h2

theorem qResultsAux_strip : ∀ (qs : List RawQuestion) (acc : QLookup),
    qResultsAux acc (qs.map stripQuestion) = qResultsAux acc qs := by
  intro qs
  induction qs with
  | nil => intro acc; simp
  | cons q rest ih =>
      intro acc
      simp only [List.map_cons, qResultsAux, stripQuestion]
      rw [show (({ q with results := some (stripAnswers (q.results.getD []))} :
          RawQuestion).results.getD []) = stripAnswers (q.results.getD []) from rfl]
      rw [show byUser (stripAnswers (q.results.getD [])) =
          byUser (q.results.getD []) from byUserAux_strip _ []]
      cases byUser (q.results.getD []) with
      | error e => rfl
      | ok mq => exact ih _

theorem qResultsAux_values : ∀ (qs : List RawQuestion) (acc qr : QLookup),
    qResultsAux acc qs = .ok qr → ∀ kv ∈ qr,
      kv ∈ acc ∨ ∃ q ∈ qs, byUser (q.results.getD []) = .ok kv.2 := by
  intro qs
  induction qs with
  | nil =>
      intro acc qr h kv hkv
      simp [qResultsAux] at h
      subst h
      exact Or.inl hkv
  | cons q rest ih =>
      intro acc qr h kv hkv
      simp only [qResultsAux] at h
      cases hbu : byUser (q.results.getD []) with
      | error e => rw [hbu] at h; exact absurd h (by simp)
      | ok mq =>
          rw [hbu] at h
          rcases ih _ qr h kv hkv with h1 | h1
          · rcases mem_upsert acc q.id mq kv h1 with h2 | h2
            · exact Or.inl h2
            · right
              refine ⟨q, List.mem_cons_self _ _, ?_⟩
              rw [hbu]
              rw [show kv.2 = mq from congrArg Prod.snd h2]
          · exact Or.inr ⟨h1.choose, List.mem_cons_of_mem _ h1.choose_spec.1,
              h1.choose_spec.2⟩

theorem qResultsAux_ok : ∀ (qs : List RawQuestion) (acc : QLookup),
    (∀ q ∈ qs, ∀ r ∈ q.results.getD [], r.deleted = false → r.user_id ≠ none) →
    ∃ qr, qResultsAux acc qs = .ok qr := by
  intro qs
  induction qs with
  | nil => intro acc _; exact ⟨acc, rfl⟩
  | cons q rest ih =>
      intro acc hwf
      simp only [qResultsAux]
      obtain ⟨mq, hmq⟩ := byUserAux_ok (q.results.getD []) []
        (hwf q (List.mem_cons_self _ _))
      rw [show byUser (q.results.getD []) = byUserAux [] (q.results.getD [])
        from rfl, hmq]
      exact ih _ (fun q' hq' => hwf q' (List.mem_cons_of_mem _ hq'))

theorem qResultsAux_error : ∀ (qs : List RawQuestion) (acc : QLookup),
    (∃ q ∈ qs, ∃ r ∈ q.results.getD [], r.deleted = false ∧ r.user_id = none) →
    ∃ e, qResultsAux acc qs = .error e := by
  intro qs
  induction qs with
  | nil => rintro acc ⟨q, hq, _⟩; simp at hq
  | cons q0 rest ih =>
      rintro acc ⟨q, hq, r, hr, hdel, huid⟩
      simp only [qResultsAux]
      rcases List.mem_cons.1 hq with h2 | h2
      · subst h2
        obtain ⟨e, he⟩ := byUserAux_error (q.results.getD []) []
          ⟨r, hr, hdel, huid⟩
        rw [show byUser (q.results.getD []) = byUserAux [] (q.results.getD [])
          from rfl, he]
        exact ⟨e, rfl⟩
      · cases hbu : byUser (q0.results.getD []) with
        | error e => exact ⟨e, rfl⟩
        | ok mq => exact ih _ ⟨q, h2, r, hr, hdel, huid⟩

/-! ### Lemmas: the question-role classifier -/

theorem identifyStep_tenure (m : RoleMap) (q : RawQuestion) :
    (identifyStep m q).tenure = m.tenure ∨
      (identifyStep m q).tenure = some q.id := by
  simp only [identifyStep]
  split_ifs <;> simp

theorem identifyStep_rating (m : RoleMap) (q : RawQuestion) :
    (identifyStep m q).rating = m.rating ∨
      (identifyStep m q).rating = some q.id := by
  simp only [identifyStep]
  split_ifs <;> simp

theorem foldl_identify_tenure : ∀ (qs : List RawQuestion) (m : RoleMap)
    (tid : String), (qs.foldl identifyStep m).tenure = some tid →
    m.tenure = some tid ∨ ∃ q ∈ qs, q.id = tid := by
  intro qs
  induction qs with
  | nil => intro m tid h; exact Or.inl h
  | cons q rest ih =>
      intro m tid h
      simp only [List.foldl_cons] at h
      rcases ih _ tid h with h1 | h1
      · rcases identifyStep_tenure m q with h2 | h2
        · exact Or.inl (h2 ▸ h1)
        · rw [h2] at h1
          exact Or.inr ⟨q, List.mem_cons_self _ _, by simpa using h1⟩
      · exact Or.inr ⟨h1.choose, List.mem_cons_of_mem _ h1.choose_spec.1,
          h1.choose_spec.2⟩

theorem foldl_identify_rating : ∀ (qs : List RawQuestion) (m : RoleMap)
    (rid : String), (qs.foldl identifyStep m).rating = some rid →
    m.rating = some rid ∨ ∃ q ∈ qs, q.id = rid := by
  intro qs
  induction qs with
  | nil => intro m rid h; exact Or.inl h
  | cons q rest ih =>
      intro m rid h
      simp only [List.foldl_cons] at h
      rcases ih _ rid h with h1 | h1
      · rcases identifyStep_rating m q with h2 | h2
        · exact Or.inl (h2 ▸ h1)
        · rw [h2] at h1
          exact Or.inr ⟨q, List.mem_cons_self _ _, by simpa using h1⟩
      · exact Or.inr ⟨h1.choose, List.mem_cons_of_mem _ h1.choose_spec.1,
          h1.choose_spec.2⟩

/-- A mapped tenure role names the id of some question of the document. -/
theorem identify_tenure_mem (qs : List RawQuestion) (tid : String)
    (h : (identifyQuestions qs).tenure = some tid) : ∃ q ∈ qs, q.id = tid := by
  rcases foldl_identify_tenure qs {} tid h with h1 | h1
  · simp at h1
  · exact h1

/-- A mapped rating role names the id of some question of the document. -/
theorem identify_rating_mem (qs : List RawQuestion) (rid : String)
    (h : (identifyQuestions qs).rating = some rid) : ∃ q ∈ qs, q.id = rid := by
  rcases foldl_identify_rating qs {} rid h with h1 | h1
  · simp at h1
  · exact h1

/-! ### Lemmas: `mapExcept` and the respondent builder -/

theorem exceptBind_ok {α β : Type} (x : Except String α)
    (f : α → Except String β) (b : β) (h : x >>= f = .ok b) :
    ∃ a, x = .ok a ∧ f a = .ok b := by
  cases x with
  | error e => exact absurd h (by simp [Bind.bind, Except.bind])
  | ok a => exact ⟨a, rfl, by simpa [Bind.bind, Except.bind] using h⟩

theorem mapExcept_ok_map {α β : Type} (f : α → Except String β) (g : β → α) :
    ∀ (xs : List α) (ys : List β), mapExcept f xs = .ok ys →
    (∀ x y, f x = .ok y → g y = x) → ys.map g = xs := by
  intro xs
  induction xs with
  | nil =>
      intro ys h _
      simp [mapExcept] at h
      subst h
      simp
  | cons x rest ih =>
      intro ys h hg
      simp only [mapExcept] at h
      cases hfx : f x with
      | error e => rw [hfx] at h; exact absurd h (by simp)
      | ok y =>
          rw [hfx] at h
          cases hrest : mapExcept f rest with
          | error e => rw [hrest] at h; exact absurd h (by simp)
          | ok ys' =>
              rw [hrest] at h
              have hys : ys = y :: ys' := by
                cases h; rfl
              subst hys
              simp [hg x y hfx, ih ys' hrest hg]

theorem mapExcept_ok_of {α β : Type} (f : α → Except String β) :
    ∀ (xs : List α), (∀ x ∈ xs, ∃ y, f x = .ok y) →
    ∃ ys, mapExcept f xs = .ok ys := by
  intro xs
  induction xs with
  | nil => intro _; exact ⟨[], rfl⟩
  | cons x rest ih =>
      intro hall
      obtain ⟨y, hy⟩ := hall x (List.mem_cons_self _ _)
      obtain ⟨ys, hys⟩ := ih (fun x' hx' => hall x' (List.mem_cons_of_mem _ hx'))
      exact ⟨y :: ys, by simp [mapExcept, hy, hys]⟩

theorem roleAnswer_mem (qr : QLookup) (role : Option String) (uid : String)
    (a : RawAnswer) (h : roleAnswer qr role uid = some a) :
    ∃ kv ∈ qr, ∃ kv2 ∈ kv.2, kv2.2 = a := by
  cases role with
  | none => simp [roleAnswer] at h
  | some q =>
      simp only [roleAnswer] at h
      split at h
      · exact absurd h (by simp)
      · cases hq : alookup qr q with
        | none => rw [hq] at h; exact absurd h (by simp)
        | some mu =>
            rw [hq] at h
            exact ⟨(q, mu), alookup_mem qr q mu hq, (uid, a),
              alookup_mem mu uid a h, rfl⟩

theorem ratingBlock_ok (qr : QLookup) (rq : Option String) (uid : String)
    (h : ∀ a, roleAnswer qr rq uid = some a → a.text ≠ none) :
    ∃ v, ratingBlock qr rq uid = .ok v := by
  cases hr : roleAnswer qr rq uid with
  | some a =>
      cases hx : a.text with
      | none => exact absurd hx (h a hr)
      | some t =>
          simp only [ratingBlock, hr, getTextE, hx, Bind.bind, Except.bind]
          exact ⟨_, rfl⟩
  | none =>
      simp only [ratingBlock, hr]
      exact ⟨_, rfl⟩

theorem openTextBlock_ok (qr : QLookup) (oq : Option String) (uid : String)
    (h : ∀ a, roleAnswer qr oq uid = some a → a.text ≠ none) :
    ∃ v, openTextBlock qr oq uid = .ok v := by
  cases hr : roleAnswer qr oq uid with
  | some a =>
      cases hx : a.text with
      | none => exact absurd hx (h a hr)
      | some t =>
          simp only [openTextBlock, hr, getTextE, hx, Bind.bind, Except.bind]
          exact ⟨_, rfl⟩
  | none =>
      simp only [openTextBlock, hr]
      exact ⟨_, rfl⟩

theorem titleBlock_ok (qr : QLookup) (tq : Option String) (uid : String)
    (h : ∀ a, roleAnswer qr tq uid = some a → a.text ≠ none) :
    ∃ v, titleBlock qr tq uid = .ok v := by
  cases hr : roleAnswer qr tq uid with
  | some a =>
      cases hx : a.text with
      | none => exact absurd hx (h a hr)
      | some t =>
          simp only [titleBlock, hr, getTextE, hx, Bind.bind, Except.bind]
          by_cases hc : (trimChars t.data).isEmpty
          · rw [if_pos hc]; exact ⟨_, rfl⟩
          · rw [if_neg hc]; exact ⟨_, rfl⟩
  | none =>
      simp only [titleBlock, hr]
      exact ⟨_, rfl⟩

theorem sizeBlock_ok (qr : QLookup) (sq : Option String) (uid : String)
    (h : ∀ a, roleAnswer qr sq uid = some a → a.text ≠ none) :
    ∃ v, sizeBlock qr sq uid = .ok v := by
  cases hr : roleAnswer qr sq uid with
  | some a =>
      cases hx : a.text with
      | none => exact absurd hx (h a hr)
      | some t =>
          simp only [sizeBlock, hr, getTextE, hx, Bind.bind, Except.bind]
          exact ⟨_, rfl⟩
  | none =>
      simp only [sizeBlock, hr]
      exact ⟨_, rfl⟩

theorem tenureBlock_ok (qr : QLookup) (tq : Option String) (uid : String)
    (h : ∀ a, roleAnswer qr tq uid = some a → a.text ≠ none) :
    ∃ v, tenureBlock qr tq uid = .ok v := by
  cases hr : roleAnswer qr tq uid with
  | some a =>
      cases hx : a.text with
      | none => exact absurd hx (h a hr)
      | some t =>
          simp only [tenureBlock, hr, getTextE, hx, Bind.bind, Except.bind]
          exact ⟨_, rfl⟩
  | none =>
      simp only [tenureBlock, hr]
      exact ⟨_, rfl⟩

theorem buildRespondent_uid (m : RoleMap) (qr : QLookup) (uid : String)
    (r : Respondent) (h : buildRespondent m qr uid = .ok r) :
    r.user_id = uid := by
  simp only [buildRespondent] at h
  obtain ⟨rv, _, h⟩ := exceptBind_ok _ _ _ h
  obtain ⟨ot, _, h⟩ := exceptBind_ok _ _ _ h
  obtain ⟨tl, _, h⟩ := exceptBind_ok _ _ _ h
  obtain ⟨cs, _, h⟩ := exceptBind_ok _ _ _ h
  obtain ⟨tn, _, h⟩ := exceptBind_ok _ _ _ h
  simp only [Pure.pure, Except.pure, Except.ok.injEq] at h
  rw [← h]

/-- Under per-answer well-formedness (every stored answer has a `text`
key), building a respondent never raises. -/
theorem buildRespondent_ok (m : RoleMap) (qr : QLookup) (uid : String)
    (htext : ∀ kv ∈ qr, ∀ kv2 ∈ kv.2, (kv2 : String × RawAnswer).2.text ≠ none) :
    ∃ r, buildRespondent m qr uid = .ok r := by
  have hra : ∀ role : Option String, ∀ a, roleAnswer qr role uid = some a →
      a.text ≠ none := by
    intro role a ha
    obtain ⟨kv, hkv, kv2, hkv2, heq⟩ := roleAnswer_mem qr role uid a ha
    have := htext kv hkv kv2 hkv2
    rw [heq] at this
    exact this
  obtain ⟨v1, h1⟩ := ratingBlock_ok qr m.rating uid (hra _)
  obtain ⟨v2, h2⟩ := openTextBlock_ok qr m.open_text uid (hra _)
  obtain ⟨v3, h3⟩ := titleBlock_ok qr m.title uid (hra _)
  obtain ⟨v4, h4⟩ := sizeBlock_ok qr m.company_size uid (hra _)
  obtain ⟨v5, h5⟩ := tenureBlock_ok qr m.tenure uid (hra _)
  simp only [buildRespondent, h1, h2, h3, h4, h5, Bind.bind, Except.bind]
  exact ⟨_, rfl⟩

/-! ### Lemmas: invariance under removing soft-deleted answers -/

theorem qResults_strip (qs : List RawQuestion) :
    qResults (qs.map stripQuestion) = qResults qs :=
  qResultsAux_strip qs []

theorem ingestWithMap_strip (m : RoleMap) (qs : List RawQuestion) :
    ingestWithMap m (qs.map stripQuestion) = ingestWithMap m qs := by
  simp only [ingestWithMap, qResults_strip]

theorem buildDistForQuestion_strip (q : RawQuestion) :
    buildDistForQuestion (stripQuestion q) = buildDistForQuestion q := by
  have h : ((stripQuestion q).results.getD []).filter (fun r => !r.deleted)
      = (q.results.getD []).filter (fun r => !r.deleted) := by
    simp [stripQuestion, stripAnswers, List.filter_filter]
  simp only [buildDistForQuestion]
  rw [show (stripQuestion q).qtype = q.qtype from rfl,
      show (stripQuestion q).text = q.text from rfl, h]

theorem mapExcept_map_congr {α γ : Type} (f : α → Except String γ) (g : α → α)
    (h : ∀ x, f (g x) = f x) :
    ∀ xs : List α, mapExcept f (xs.map g) = mapExcept f xs := by
  intro xs
  induction xs with
  | nil => rfl
  | cons x rest ih =>
      simp only [List.map_cons, mapExcept, h x, ih]

theorem buildQuestionDistributions_strip (d : SurveyData) :
    buildQuestionDistributions (stripDeleted d) = buildQuestionDistributions d := by
  obtain ⟨qs⟩ := d
  cases qs with
  | none => rfl
  | some l =>
      simp only [buildQuestionDistributions]
      rw [show (stripDeleted ⟨some l⟩).questions.getD [] = l.map stripQuestion
            from rfl,
          show (SurveyData.mk (some l)).questions.getD [] = l from rfl,
          mapExcept_map_congr buildDistForQuestion stripQuestion
            buildDistForQuestion_strip l]

/-! ### Lemmas: the cohort of `ingest` versus the specified cohort -/

theorem byUser_keys_iff (rs : List RawAnswer) (m : UserLookup) (uid : String)
    (h : byUser rs = .ok m) :
    uid ∈ keysOf m ↔ ∃ r ∈ rs, r.deleted = false ∧ r.user_id = some uid := by
  have := byUserAux_keys uid rs [] m h
  simpa [keysOf] using this

theorem filter_getLast_eq_find (tid : String) : ∀ (qs : List RawQuestion),
    (qs.map RawQuestion.id).Nodup →
    (qs.filter (fun q => q.id == tid)).getLast? =
      qs.find? (fun q => q.id == tid) := by
  intro qs
  induction qs with
  | nil => intro _; rfl
  | cons q rest ih =>
      intro hnd
      simp only [List.map_cons, List.nodup_cons] at hnd
      by_cases hid : q.id = tid
      · rw [List.filter_cons_of_pos (by simp [hid]),
          List.find?_cons_of_pos _ (by simp [hid])]
        have hnil : rest.filter (fun q' => q'.id == tid) = [] := by
          rw [List.filter_eq_nil]
          intro q' hq' hcon
          have hq'id : q'.id = tid := by simpa using hcon
          apply hnd.1
          rw [hid, ← hq'id]
          exact List.mem_map_of_mem _ hq'
        rw [hnil]
        simp
      · rw [List.filter_cons_of_neg (by simp [hid]),
          List.find?_cons_of_neg _ (by simp [hid])]
        exact ih hnd.2

theorem mem_answerersOf (qs : List RawQuestion) (qid uid : String) :
    uid ∈ answerersOf qs qid ↔
      ∃ q, qs.find? (fun q' => q'.id == qid) = some q ∧
        ∃ r ∈ q.results.getD [], r.deleted = false ∧ r.user_id = some uid := by
  simp only [answerersOf]
  cases hf : qs.find? (fun q' => q'.id == qid) with
  | none => simp
  | some q =>
      simp only [List.mem_filterMap, List.mem_filter, Option.some.injEq]
      constructor
      · rintro ⟨r, ⟨hr, hd⟩, hu⟩
        exact ⟨q, rfl, r, hr, by simpa using hd, hu⟩
      · rintro ⟨q', hq', r, hr, hd, hu⟩
        subst hq'
        exact ⟨r, ⟨hr, by simpa using hd⟩, hu⟩

/-- The per-question lookups stored in `q_results` have pairwise-distinct
user-id keys. -/
theorem qr_values_nodup (qs : List RawQuestion) (qr : QLookup)
    (hqr : qResults qs = .ok qr) (tid : String) (byu : UserLookup)
    (h : alookup qr tid = some byu) : (keysOf byu).Nodup := by
  have hmem := alookup_mem qr tid byu h
  rcases qResultsAux_values qs [] qr hqr (tid, byu) hmem with h1 | h1
  · simp at h1
  · obtain ⟨q, _, hbu⟩ := h1
    exact byUserAux_nodup (q.results.getD []) [] byu (by simp [keysOf]) hbu

theorem alookup_empty_id (qs : List RawQuestion) (qr : QLookup)
    (hne : ∀ q ∈ qs, q.id ≠ "") (hqr : qResults qs = .ok qr) :
    alookup qr "" = none := by
  have h := qResultsAux_lookup "" qs [] qr hqr
  have hnil : qs.filter (fun q => q.id == "") = [] := by
    rw [List.filter_eq_nil]
    intro q hq hcon
    exact hne q hq (by simpa using hcon)
  rw [hnil] at h
  simpa [alookup] using h

/-- For a role mapped to question id `qid` (a real question id, ids all
distinct), `q_results[qid]` is defined, is the `by_user` lookup of that
question, and its keys are that question's non-deleted answerers. -/
theorem alookup_role (qs : List RawQuestion) (qr : QLookup) (qid : String)
    (hnd : (qs.map RawQuestion.id).Nodup) (hqr : qResults qs = .ok qr)
    (hmem : ∃ q ∈ qs, q.id = qid) :
    ∃ q0 byu, qs.find? (fun q' => q'.id == qid) = some q0 ∧
      alookup qr qid = some byu ∧
      byUser (q0.results.getD []) = .ok byu := by
  obtain ⟨q, hq, hqid⟩ := hmem
  have hfs : (qs.find? (fun q' => q'.id == qid)).isSome := by
    rw [List.find?_isSome]
    exact ⟨q, hq, by simp [hqid]⟩
  obtain ⟨q0, hq0⟩ := Option.isSome_iff_exists.1 hfs
  have hq0mem : q0 ∈ qs := List.mem_of_find?_eq_some hq0
  obtain ⟨byu, hbyu⟩ := qResultsAux_ok_byUser qs [] qr hqr q0 hq0mem
  refine ⟨q0, byu, hq0, ?_, hbyu⟩
  have h := qResultsAux_lookup qid qs [] qr hqr
  rw [filter_getLast_eq_find qid qs hnd, hq0] at h
  have h2 : alookup qr qid = (byUser (q0.results.getD [])).toOption := h
  rw [hbyu] at h2
  simpa [Except.toOption] using h2

/-- Membership in the cohort computed by `ingest` coincides with the
specified cohort, provided question ids are non-empty and distinct. -/
theorem cohortIds_iff_claim (qs : List RawQuestion) (qr : QLookup)
    (hne : ∀ q ∈ qs, q.id ≠ "") (hnd : (qs.map RawQuestion.id).Nodup)
    (hqr : qResults qs = .ok qr) (uid : String) :
    uid ∈ cohortIds (identifyQuestions qs) qr ↔ uid ∈ claimCohort qs := by
  cases ht : (identifyQuestions qs).tenure with
  | some tid =>
      have hmem := identify_tenure_mem qs tid ht
      have htid : tid ≠ "" := by
        obtain ⟨q, hq, hqid⟩ := hmem
        rw [← hqid]
        exact hne q hq
      obtain ⟨q0, byu, hfind, hal, hbyu⟩ := alookup_role qs qr tid hnd hqr hmem
      simp only [cohortIds, claimCohort, ht]
      rw [if_pos htid]
      simp only [hal]
      rw [byUser_keys_iff _ _ _ hbyu, mem_answerersOf]
      constructor
      · intro hx
        exact ⟨q0, hfind, hx⟩
      · rintro ⟨q', hq', hx⟩
        rw [hfind, Option.some.injEq] at hq'
        subst hq'
        exact hx
  | none =>
      cases hrt : (identifyQuestions qs).rating with
      | some rid =>
          have hmem := identify_rating_mem qs rid hrt
          obtain ⟨q0, byu, hfind, hal, hbyu⟩ :=
            alookup_role qs qr rid hnd hqr hmem
          simp only [cohortIds, claimCohort, ht, hrt, cohortFallback,
            Option.getD_some, hal]
          rw [byUser_keys_iff _ _ _ hbyu, mem_answerersOf]
          constructor
          · intro hx
            exact ⟨q0, hfind, hx⟩
          · rintro ⟨q', hq', hx⟩
            rw [hfind, Option.some.injEq] at hq'
            subst hq'
            exact hx
      | none =>
          simp only [cohortIds, claimCohort, ht, hrt, cohortFallback,
            Option.getD_none]
          rw [alookup_empty_id qs qr hne hqr]
          simp [keysOf]

/-- The cohort never repeats a user id. -/
theorem cohortIds_nodup (qs : List RawQuestion) (qr : QLookup)
    (hqr : qResults qs = .ok qr) (m : RoleMap) :
    (cohortIds m qr).Nodup := by
  have hfb : (cohortFallback m qr).Nodup := by
    simp only [cohortFallback]
    cases hal : alookup qr (m.rating.getD "") with
    | none => simp [keysOf]
    | some byu => simpa using qr_values_nodup qs qr hqr _ byu hal
  cases htm : m.tenure with
  | none => simp only [cohortIds, htm]; exact hfb
  | some tid =>
      simp only [cohortIds, htm]
      by_cases htid : tid ≠ ""
      · rw [if_pos htid]
        cases hal : alookup qr tid with
        | none => exact hfb
        | some byu => exact qr_values_nodup qs qr hqr _ byu hal
      · rw [if_neg htid]
        exact hfb

/-! ### Lemmas: `ingest`-level error behaviour -/

theorem ingest_error_missing_uid (d : SurveyData) (cfg : SurveyConfig)
    (hbad : ∃ q ∈ d.questions.getD [], ∃ r ∈ q.results.getD [],
      r.deleted = false ∧ r.user_id = none) :
    ∃ e, ingest d cfg = .error e := by
  obtain ⟨e, he⟩ := qResultsAux_error (d.questions.getD []) [] hbad
  refine ⟨e, ?_⟩
  simp only [ingest, ingestWithMap]
  rw [show qResults (d.questions.getD []) =
    qResultsAux [] (d.questions.getD []) from rfl, he]

theorem ingest_ok_wf (d : SurveyData) (cfg : SurveyConfig)
    (hwf : ∀ q ∈ d.questions.getD [], ∀ r ∈ q.results.getD [],
      r.deleted = false → (r.user_id ≠ none ∧ r.text ≠ none)) :
    ∃ rs, ingest d cfg = .ok rs := by
  obtain ⟨qr, hqr⟩ := qResultsAux_ok (d.questions.getD []) []
    (fun q hq r hr hd => (hwf q hq r hr hd).1)
  have hqr' : qResults (d.questions.getD []) = .ok qr := hqr
  have htext : ∀ kv ∈ qr, ∀ kv2 ∈ kv.2,
      (kv2 : String × RawAnswer).2.text ≠ none := by
    intro kv hkv kv2 hkv2
    rcases qResultsAux_values (d.questions.getD []) [] qr hqr' kv hkv with h1 | h1
    · simp at h1
    · obtain ⟨q, hq, hbu⟩ := h1
      rcases byUserAux_values (q.results.getD []) [] kv.2 hbu kv2 hkv2 with h2 | h2
      · simp at h2
      · exact (hwf q hq kv2.2 h2.1 h2.2).2
  obtain ⟨rs, hrs⟩ := mapExcept_ok_of (buildRespondent _ qr)
    (cohortIds (identifyQuestions (d.questions.getD [])) qr)
    (fun uid _ => buildRespondent_ok _ qr uid htext)
  refine ⟨rs, ?_⟩
  simp only [ingest, ingestWithMap, hqr']
  exact hrs

/-! ### Lemmas: the stable sorts of the distribution builder -/

theorem insAscBy_perm {α : Type} (key : α → Nat) (x : α) :
    ∀ l : List α, (insAscBy key x l).Perm (x :: l) := by
  intro l
  induction l with
  | nil => exact List.Perm.refl _
  | cons y ys ih =>
      simp only [insAscBy]
      split_ifs with h
      · exact List.Perm.refl _
      · exact (ih.cons y).trans (List.Perm.swap x y ys)

theorem sortAscBy_perm {α : Type} (key : α → Nat) :
    ∀ l : List α, (sortAscBy key l).Perm l := by
  intro l
  induction l with
  | nil => exact List.Perm.refl _
  | cons x xs ih =>
      exact (insAscBy_perm key x (sortAscBy key xs)).trans (ih.cons x)

theorem insAscBy_pairwise {α : Type} (key : α → Nat) (x : α) :
    ∀ l : List α, l.Pairwise (fun a b => key a ≤ key b) →
    (insAscBy key x l).Pairwise (fun a b => key a ≤ key b) := by
  intro l
  induction l with
  | nil => intro _; simp [insAscBy]
  | cons y ys ih =>
      intro h
      rcases List.pairwise_cons.1 h with ⟨hy, hys⟩
      simp only [insAscBy]
      split_ifs with hxy
      · refine List.pairwise_cons.2 ⟨?_, h⟩
        intro b hb
        rcases List.mem_cons.1 hb with hb | hb
        · rw [hb]; exact hxy
        · exact le_trans hxy (hy b hb)
      · refine List.pairwise_cons.2 ⟨?_, ih hys⟩
        intro b hb
        have hmem := (insAscBy_perm key x ys).mem_iff.1 hb
        rcases List.mem_cons.1 hmem with hb' | hb'
        · rw [hb']; omega
        · exact hy b hb'

theorem sortAscBy_pairwise {α : Type} (key : α → Nat) :
    ∀ l : List α, (sortAscBy key l).Pairwise (fun a b => key a ≤ key b) := by
  intro l
  induction l with
  | nil => simp [sortAscBy]
  | cons x xs ih => exact insAscBy_pairwise key x (sortAscBy key xs) ih

/-! ### Lemmas: exact one-decimal rounding -/

theorem ratFloor_eq_intFloor (x : ℚ) : x.floor = ⌊x⌋ := by
  rw [Rat.floor_def', Rat.floor_def]

theorem roundHalfEven_nonneg (x : ℚ) (h : 0 ≤ x) : 0 ≤ roundHalfEven x := by
  simp only [roundHalfEven, ratFloor_eq_intFloor]
  have hf : (0 : ℤ) ≤ ⌊x⌋ := Int.floor_nonneg.mpr h
  split_ifs <;> omega

theorem roundHalfEven_le (x : ℚ) (n : ℤ) (h : x ≤ (n : ℚ)) :
    roundHalfEven x ≤ n := by
  have hf : ⌊x⌋ ≤ n := by
    rw [show n = ⌊(n : ℚ)⌋ from (Int.floor_intCast n).symm]
    exact Int.floor_le_floor h
  have hstep : ¬(x - (⌊x⌋ : ℚ) < 1/2) → ⌊x⌋ + 1 ≤ n := by
    intro h1
    push_neg at h1
    by_contra hcon
    push_neg at hcon
    have hEq : ⌊x⌋ = n := by omega
    have hxle : x - (⌊x⌋ : ℚ) ≤ 0 := by
      rw [hEq]
      linarith
    linarith
  simp only [roundHalfEven, ratFloor_eq_intFloor]
  split_ifs with h1 h2 h3
  · exact hf
  · exact hstep h1
  · exact hf
  · exact hstep h1

theorem round1_nonneg (x : ℚ) (h : 0 ≤ x) : 0 ≤ round1 x := by
  simp only [round1]
  have h10 := roundHalfEven_nonneg (x * 10) (by linarith)
  exact div_nonneg (by exact_mod_cast h10) (by norm_num)

theorem round1_le_100 (x : ℚ) (h : x ≤ 100) : round1 x ≤ 100 := by
  simp only [round1]
  have h10 := roundHalfEven_le (x * 10) 1000 (by push_cast; linarith)
  rw [div_le_iff (by norm_num : (0 : ℚ) < 10)]
  calc ((roundHalfEven (x * 10) : ℚ)) ≤ ((1000 : ℤ) : ℚ) := by exact_mod_cast h10
  _ = 100 * 10 := by norm_num

theorem roundHalfEven_intCast (n : ℤ) : roundHalfEven (n : ℚ) = n := by
  simp only [roundHalfEven, ratFloor_eq_intFloor, Int.floor_intCast]
  rw [if_pos (by norm_num)]

theorem round1_hundred : round1 100 = 100 := by
  simp only [round1]
  rw [show (100 : ℚ) * 10 = ((1000 : ℤ) : ℚ) by norm_num, roundHalfEven_intCast]
  norm_num

/-! ### Lemmas: Python `max(...)` over the pct values -/

theorem foldl_max_le_init (ys : List ℚ) : ∀ a : ℚ, a ≤ ys.foldl max a := by
  induction ys with
  | nil => intro a; simp
  | cons y ys ih =>
      intro a
      simp only [List.foldl_cons]
      exact le_trans (le_max_left a y) (ih (max a y))

theorem mem_le_foldl_max (ys : List ℚ) : ∀ (a x : ℚ), x ∈ ys →
    x ≤ ys.foldl max a := by
  induction ys with
  | nil => intro a x hx; simp at hx
  | cons y ys ih =>
      intro a x hx
      rcases List.mem_cons.1 hx with h | h
      · rw [h]
        exact le_trans (le_max_right a y) (foldl_max_le_init ys _)
      · exact ih _ x h

theorem le_pyMaxQ (l : List ℚ) (d x : ℚ) (hx : x ∈ l) : x ≤ pyMaxQ l d := by
  cases l with
  | nil => simp at hx
  | cons y ys =>
      simp only [pyMaxQ]
      rcases List.mem_cons.1 hx with h | h
      · rw [h]; exact foldl_max_le_init ys y
      · exact mem_le_foldl_max ys y x h

theorem foldl_max_mem (ys : List ℚ) : ∀ a : ℚ,
    ys.foldl max a = a ∨ ys.foldl max a ∈ ys := by
  induction ys with
  | nil => intro a; simp
  | cons y ys ih =>
      intro a
      simp only [List.foldl_cons]
      rcases ih (max a y) with h | h
      · rcases max_choice a y with hm | hm
        · left; rw [h, hm]
        · right; rw [h, hm]; exact List.mem_cons_self _ _
      · right; exact List.mem_cons_of_mem _ h

theorem pyMaxQ_mem (l : List ℚ) (d : ℚ) (h : l ≠ []) : pyMaxQ l d ∈ l := by
  cases l with
  | nil => exact absurd rfl h
  | cons y ys =>
      simp only [pyMaxQ]
      rcases foldl_max_mem ys y with h1 | h1
      · rw [h1]; exact List.mem_cons_self _ _
      · exact List.mem_cons_of_mem _ h1

/-! ### Lemmas: the detector pattern is contained in the extractor pattern -/

/-- Every text matching the detector's `^\d+\s+[-–—]\s+\S` also matches the
extractor's `^(\d+)\s*[-–—]`, with the same captured integer. -/
theorem ratingDashPat_looseDashPat (cs : List Char)
    (h : ratingDashPat cs = true) :
    looseDashPat cs = some (digitsToNat (cs.takeWhile Char.isDigit)) := by
  obtain ⟨ds, r1, hsp⟩ : ∃ ds r1, cs.span Char.isDigit = (ds, r1) := ⟨_, _, rfl⟩
  have hds_take : ds = cs.takeWhile Char.isDigit := by
    have h1 := congrArg Prod.fst hsp
    rw [List.span_eq_take_drop] at h1
    exact h1.symm
  obtain ⟨w1, r2, hsp2⟩ : ∃ w1 r2, r1.span Char.isWhitespace = (w1, r2) :=
    ⟨_, _, rfl⟩
  simp only [ratingDashPat, hsp, hsp2] at h
  simp only [looseDashPat, hsp, hsp2]
  by_cases hds : ds.isEmpty
  · rw [if_pos hds] at h
    exact absurd h (by simp)
  · rw [if_neg hds] at h
    rw [if_neg hds]
    by_cases hw1 : w1.isEmpty
    · rw [if_pos hw1] at h
      exact absurd h (by simp)
    · rw [if_neg hw1] at h
      cases r2 with
      | nil => exact absurd h (by simp)
      | cons d r3 =>
          by_cases hd : isDashChar d
          · simp [hd, hds_take]
          · simp [hd] at h

/-- The extractor's first branch never fires on a bare digit string (no dash
follows the digits), so bare integers take the `isdigit` branch. -/
theorem looseDashPat_digits (s : List Char) (h : isDigitStr s = true) :
    looseDashPat s = none := by
  have hall : ∀ x ∈ s, Char.isDigit x = true := by
    have h2 := h
    simp only [isDigitStr, Bool.and_eq_true, List.all_eq_true] at h2
    exact h2.2
  have hdw : s.dropWhile Char.isDigit = [] := by
    rw [List.dropWhile_eq_nil_iff]
    exact hall
  simp only [looseDashPat, List.span_eq_take_drop, hdw]
  split_ifs <;> simp [List.span_eq_take_drop]

theorem mapExcept_ok_mem {α β : Type} (f : α → Except String β) :
    ∀ (xs : List α) (ys : List β), mapExcept f xs = .ok ys →
    ∀ y ∈ ys, ∃ x ∈ xs, f x = .ok y := by
  intro xs
  induction xs with
  | nil =>
      intro ys h y hy
      simp [mapExcept] at h
      subst h
      simp at hy
  | cons x rest ih =>
      intro ys h y hy
      simp only [mapExcept] at h
      cases hfx : f x with
      | error e => rw [hfx] at h; exact absurd h (by simp)
      | ok y0 =>
          rw [hfx] at h
          cases hrest : mapExcept f rest with
          | error e => rw [hrest] at h; exact absurd h (by simp)
          | ok ys2 =>
              rw [hrest] at h
              have hys : ys = y0 :: ys2 := by cases h; rfl
              subst hys
              rcases List.mem_cons.1 hy with h2 | h2
              · rw [h2]; exact ⟨x, List.mem_cons_self _ _, hfx⟩
              · obtain ⟨x2, hx2, hfx2⟩ := ih ys2 hrest y h2
                exact ⟨x2, List.mem_cons_of_mem _ hx2, hfx2⟩

theorem mkPreEntry_pct_nonneg (isRat : Bool) (u : Nat) (p : String × Nat) :
    0 ≤ (mkPreEntry isRat u p).pct := by
  simp only [mkPreEntry]
  split_ifs with h
  · apply round1_nonneg
    positivity
  · exact le_refl 0

theorem sortChoices_mem (isRat : Bool) (pres : List PreEntry) (e : PreEntry)
    (he : e ∈ sortChoices isRat pres) : e ∈ pres := by
  simp only [sortChoices] at he
  split_ifs at he
  · exact (sortAscBy_perm _ pres).mem_iff.1 he
  · exact (sortAscBy_perm _ pres).mem_iff.1 he
  · exact he

theorem sortChoices_pct_nonneg (isRat : Bool) (u : Nat)
    (counts : List (String × Nat)) (x : PreEntry)
    (hx : x ∈ sortChoices isRat (counts.map (mkPreEntry isRat u))) :
    0 ≤ x.pct := by
  obtain ⟨p, _, hp⟩ := List.mem_map.1 (sortChoices_mem _ _ x hx)
  rw [← hp]
  exact mkPreEntry_pct_nonneg _ _ _

/-- The bar-width assignment of `build_question_distributions`, over an
arbitrary sorted choice list: bar widths lie in `[0, 100]` and a positive
maximal pct gets bar width exactly 100. -/
theorem finalize_bounds (sorted : List PreEntry) (maxPct : ℚ) (e : PreEntry)
    (he : e ∈ sorted) (hpct0 : ∀ x ∈ sorted, 0 ≤ x.pct)
    (hmaxdef : maxPct = pyMaxQ (sorted.map (fun x => x.pct)) 1) :
    0 ≤ (finalizeEntry maxPct e).pct ∧
    0 ≤ (finalizeEntry maxPct e).bar_width ∧
    (finalizeEntry maxPct e).bar_width ≤ 100 ∧
    ((∀ x ∈ sorted, x.pct ≤ e.pct) → 0 < e.pct →
      (finalizeEntry maxPct e).bar_width = 100) := by
  have he0 : 0 ≤ e.pct := hpct0 e he
  have hemax : e.pct ≤ maxPct := by
    rw [hmaxdef]
    exact le_pyMaxQ _ 1 e.pct (List.mem_map_of_mem _ he)
  have hfp : (finalizeEntry maxPct e).pct = e.pct := rfl
  have hfb : (finalizeEntry maxPct e).bar_width =
      if 0 < maxPct then round1 (e.pct / maxPct * 100) else 0 := rfl
  refine ⟨by rw [hfp]; exact he0, ?_, ?_, ?_⟩
  · rw [hfb]
    split_ifs with hm
    · apply round1_nonneg
      have hdiv : 0 ≤ e.pct / maxPct := div_nonneg he0 (le_of_lt hm)
      linarith
    · exact le_refl 0
  · rw [hfb]
    split_ifs with hm
    · apply round1_le_100
      have h1 : e.pct / maxPct ≤ 1 := (div_le_one hm).2 hemax
      linarith
    · norm_num
  · intro hall hpos
    have hne : sorted.map (fun x => x.pct) ≠ [] := by
      intro hcon
      rw [List.map_eq_nil] at hcon
      rw [hcon] at he
      simp at he
    have hmem : maxPct ∈ sorted.map (fun x => x.pct) := by
      rw [hmaxdef]
      exact pyMaxQ_mem _ 1 hne
    obtain ⟨e2, he2, hep⟩ := List.mem_map.1 hmem
    have hle : maxPct ≤ e.pct := by
      rw [← hep]
      exact hall e2 he2
    have hcm : e.pct = maxPct := le_antisymm hemax hle
    have hmpos : 0 < maxPct := hcm ▸ hpos
    rw [hfb, if_pos hmpos, hcm, div_self (ne_of_gt hmpos)]
    simpa using round1_hundred

/-- All bounds of the amended C6, established per emitted question. -/
theorem buildDistForQuestion_bounds (q : RawQuestion) (qd : QuestionDist)
    (h : buildDistForQuestion q = .ok (some qd)) :
    ∀ c ∈ qd.choices, 0 ≤ c.pct ∧ 0 ≤ c.bar_width ∧ c.bar_width ≤ 100 ∧
      ((∀ c2 ∈ qd.choices, c2.pct ≤ c.pct) → 0 < c.pct → c.bar_width = 100) := by
  simp only [buildDistForQuestion] at h
  split_ifs at h with hmc hresp
  · exact absurd h (by simp)
  · exact absurd h (by simp)
  · cases huids : mapExcept (fun r => match r.user_id with
        | some u => Except.ok u
        | none => Except.error "KeyError: user_id")
        ((q.results.getD []).filter (fun r => !r.deleted)) with
    | error e => rw [huids] at h; exact absurd h (by simp)
    | ok uids =>
        rw [huids] at h
        cases htexts : mapExcept getTextE
            ((q.results.getD []).filter (fun r => !r.deleted)) with
        | error e => rw [htexts] at h; exact absurd h (by simp)
        | ok texts =>
            rw [htexts] at h
            have hqd := Option.some.inj (Except.ok.inj h)
            subst hqd
            intro c hc
            obtain ⟨e, he, hce⟩ := List.mem_map.1 hc
            have hb := finalize_bounds _ _ e he
              (fun x hx => sortChoices_pct_nonneg _ _ _ x hx) rfl
            rw [← hce]
            refine ⟨hb.1, hb.2.1, hb.2.2.1, ?_⟩
            intro hall hpos
            apply hb.2.2.2
            · intro x hx
              exact hall _ (List.mem_map_of_mem _ hx)
            · exact hpos

/-! ## The claims -/

/-- A survey config (its contents are never read by `ingest`). -/
def cfg0 : SurveyConfig := {}

/-- A document whose only non-deleted answer is unrelated to ratings, but
whose five deleted answers all match the rating pattern: the classifier
assigns the rating role because `_identify_questions` does not filter
deleted answers. -/
def c1CexDoc : SurveyData :=
  { questions := some [
      { id := "q1", text := some "How do you feel?",
        qtype := some "multiple_choice",
        results := some [
          { user_id := some "u1", text := some "hello", deleted := false },
          { user_id := some "u2", text := some "1 - bad", deleted := true },
          { user_id := some "u3", text := some "2 - meh", deleted := true },
          { user_id := some "u4", text := some "3 - ok", deleted := true },
          { user_id := some "u5", text := some "4 - good", deleted := true },
          { user_id := some "u6", text := some "5 - great", deleted := true } ] } ] }

/-- C1 (counterexample): deleted answers are *not* excluded from every
computation — removing them changes `ingest`'s output, because
`_identify_questions` feeds unfiltered `results` (deleted included) to
`_is_rating_question`. -/
theorem C1_deleted_answers_counterexample :
    ingest c1CexDoc cfg0 ≠ ingest (stripDeleted c1CexDoc) cfg0 := by decide

/-- C1 (amended): a deleted answer is excluded from every distribution
tally, every respondent lookup and cohort, and every respondent field —
`build_question_distributions` and the post-classification part of
`ingest` are invariant under removing deleted answers.  The one exception
is the question-role classifier's rating detection, which inspects all
answers including deleted ones (see the counterexample). -/
theorem C1_deleted_answers_amended :
    (∀ d : SurveyData,
      buildQuestionDistributions (stripDeleted d) = buildQuestionDistributions d) ∧
    (∀ qs : List RawQuestion, qResults (qs.map stripQuestion) = qResults qs) ∧
    (∀ (m : RoleMap) (qs : List RawQuestion),
      ingestWithMap m (qs.map stripQuestion) = ingestWithMap m qs) :=
  ⟨buildQuestionDistributions_strip, qResults_strip, ingestWithMap_strip⟩

theorem C1_deleted_answers_witness :
    buildQuestionDistributions (stripDeleted c1CexDoc) =
      buildQuestionDistributions c1CexDoc :=
  C1_deleted_answers_amended.1 c1CexDoc

/-- C2 (counterexample): a document missing the `questions` key does *not*
raise — `survey_data.get("questions", [])` defaults to the empty list and
`ingest` returns an empty respondent list. -/
theorem C2_structural_errors_counterexample :
    ingest { questions := none } cfg0 = .ok [] := rfl

/-- C2 (amended): a missing `questions` key is treated as an empty question
list (no failure); a non-deleted answer missing `user_id` raises to the
caller; given structurally well-formed answers (each non-deleted answer has
`user_id` and `text` keys), `ingest` never raises — malformed *content*
(unparseable rating text, unrecognized categorical value) degrades to
`None`/pass-through. -/
theorem C2_structural_errors_amended :
    (∀ cfg : SurveyConfig, ingest { questions := none } cfg = .ok []) ∧
    (∀ (d : SurveyData) (cfg : SurveyConfig),
      (∃ q ∈ d.questions.getD [], ∃ r ∈ q.results.getD [],
        r.deleted = false ∧ r.user_id = none) →
      ∃ e, ingest d cfg = .error e) ∧
    (∀ (d : SurveyData) (cfg : SurveyConfig),
      (∀ q ∈ d.questions.getD [], ∀ r ∈ q.results.getD [],
        r.deleted = false → (r.user_id ≠ none ∧ r.text ≠ none)) →
      ∃ rs, ingest d cfg = .ok rs) ∧
    extractRating "N/A" = none ∧
    normalizeCompanySize "Banana" = "Banana" ∧
    normalizeTenure "a while" = "a while" :=
  ⟨fun _ => rfl, ingest_error_missing_uid, ingest_ok_wf,
   by decide, by decide, by decide⟩

/-- A document with an answer missing `user_id` (hard failure). -/
def c2BadDoc : SurveyData :=
  { questions := some [
      { id := "q1", text := some "t", qtype := some "multiple_choice",
        results := some [{ user_id := none, text := some "x" }] } ] }

/-- A well-formed document whose field *content* is malformed. -/
def c2GoodDoc : SurveyData :=
  { questions := some [
      { id := "q1", text := some "rate it", qtype := some "multiple_choice",
        results := some [{ user_id := some "u1", text := some "gibberish" }] } ] }

theorem C2_structural_errors_witness :
    (∃ e, ingest c2BadDoc cfg0 = .error e) ∧
    (∃ rs, ingest c2GoodDoc cfg0 = .ok rs) :=
  ⟨C2_structural_errors_amended.2.1 c2BadDoc cfg0 (by decide),
   C2_structural_errors_amended.2.2.1 c2GoodDoc cfg0 (by decide)⟩

/-- A document whose tenure-role question has the empty string as id: the
Python truthiness check `if tenure_q_id and …` then silently falls back to
the rating cohort. -/
def c3CexDoc : SurveyData :=
  { questions := some [
      { id := "", text := some "How long have you done this?",
        qtype := some "multiple_choice",
        results := some [{ user_id := some "u1", text := some "1-2 years" }] },
      { id := "q2", text := some "Rate it", qtype := some "multiple_choice",
        results := some [{ user_id := some "u2", text := some "1 - bad" }] } ] }

/-- C3 (counterexample): a tenure role *is* mapped (to the question with
id `""`), whose sole answerer is `u1`; yet `ingest` emits `u2` (the rating
cohort), because the empty-string id is falsy in Python. -/
theorem C3_completion_cohort_counterexample :
    claimCohort (c3CexDoc.questions.getD []) = ["u1"] ∧
    ingest c3CexDoc cfg0 =
      .ok [{ user_id := "u2", rating := some 1 }] := by
  exact ⟨by decide, by decide⟩

/-- C3 (amended): for documents whose question ids are non-empty and
pairwise distinct, a Respondent appears in `ingest`'s output iff its
user id is in the specified completion cohort (tenure answerers, falling
back to rating answerers, else empty), and each user id appears at most
once. -/
theorem C3_completion_cohort_amended (d : SurveyData) (cfg : SurveyConfig)
    (rs : List Respondent)
    (hne : ∀ q ∈ d.questions.getD [], q.id ≠ "")
    (hnd : ((d.questions.getD []).map RawQuestion.id).Nodup)
    (h : ingest d cfg = .ok rs) :
    (∀ uid, uid ∈ rs.map Respondent.user_id ↔
      uid ∈ claimCohort (d.questions.getD [])) ∧
    (rs.map Respondent.user_id).Nodup := by
  simp only [ingest, ingestWithMap] at h
  cases hqr : qResults (d.questions.getD []) with
  | error e => rw [hqr] at h; exact absurd h (by simp)
  | ok qr =>
      rw [hqr] at h
      have hmap : rs.map Respondent.user_id =
          cohortIds (identifyQuestions (d.questions.getD [])) qr :=
        mapExcept_ok_map _ Respondent.user_id _ rs h
          (fun x y hy => buildRespondent_uid _ qr x y hy)
      rw [hmap]
      exact ⟨fun uid => cohortIds_iff_claim _ qr hne hnd hqr uid,
        cohortIds_nodup _ qr hqr _⟩

/-- A well-formed document with a tenure question answered only by `u1`. -/
def c3GoodDoc : SurveyData :=
  { questions := some [
      { id := "qt", text := some "How long have you been a PM?",
        qtype := some "multiple_choice",
        results := some [{ user_id := some "u1", text := some "1-2 years" }] } ] }

theorem C3_completion_cohort_witness :
    "u1" ∈ ([{ user_id := "u1", tenure := some "1–2 years" }] :
        List Respondent).map Respondent.user_id ↔
      "u1" ∈ claimCohort (c3GoodDoc.questions.getD []) :=
  (C3_completion_cohort_amended c3GoodDoc cfg0 _ (by decide) (by decide)
    (by decide)).1 "u1"

/-- Answers with the given texts (the detector only reads `text`). -/
def answersOfTexts (ts : List String) : List RawAnswer :=
  ts.map (fun t => { user_id := none, text := some t, deleted := false })

/-- C4 (counterexample): at exactly 80% matching answers (4 of 5) the
detector returns `false` — the code compares with a strict
`matches > len * 0.8`, not `≥ 80%`. -/
theorem C4_rating_threshold_counterexample :
    isRatingQuestion (answersOfTexts
      ["1 - Poor", "2 - Fair", "3 - Good", "4 - Great", "hmm"]) = false ∧
    countRatingMatches (answersOfTexts
      ["1 - Poor", "2 - Fair", "3 - Good", "4 - Great", "hmm"]) = 4 ∧
    (answersOfTexts
      ["1 - Poor", "2 - Fair", "3 - Good", "4 - Great", "hmm"]).length = 5 :=
  ⟨by decide, by decide, by decide⟩

/-- C4 (amended): the rating detector returns true iff *strictly more than*
80% of the answers match the dash pattern (`matches > len * 0.8`); the
claim's concrete examples hold, and the empty list yields false. -/
theorem C4_rating_threshold_amended :
    (∀ rs : List RawAnswer,
      isRatingQuestion rs = true ↔ 5 * countRatingMatches rs > 4 * rs.length) ∧
    isRatingQuestion (answersOfTexts ["2-10", "11-50", "51-250"]) = false ∧
    isRatingQuestion (answersOfTexts
      ["1 - Poor", "2 - Fair", "3 - Good", "4 - Great", "5 - Excellent"]) = true ∧
    isRatingQuestion [] = false := by
  refine ⟨?_, by decide, by decide, rfl⟩
  intro rs
  simp only [isRatingQuestion]
  by_cases he : rs.isEmpty
  · rw [if_pos he]
    have h0 : rs = [] := List.isEmpty_iff.1 he
    subst h0
    simp [countRatingMatches]
  · rw [if_neg he]
    simp

theorem C4_rating_threshold_witness :
    isRatingQuestion (answersOfTexts
      ["1 - Poor", "2 - Fair", "3 - Good", "4 - Great", "5 - Excellent"]) = true ↔
    5 * countRatingMatches (answersOfTexts
      ["1 - Poor", "2 - Fair", "3 - Good", "4 - Great", "5 - Excellent"]) >
      4 * (answersOfTexts
        ["1 - Poor", "2 - Fair", "3 - Good", "4 - Great", "5 - Excellent"]).length :=
  C4_rating_threshold_amended.1 _

/-- C5 (counterexample): the extractor succeeds on `"11-50"` (returning 11)
although that text matches neither the detector's pattern (which demands
whitespace around the dash) nor a bare integer. -/
theorem C5_rating_extractor_counterexample :
    extractRating "11-50" = some 11 ∧
    ratingDashPat (trimChars "11-50".data) = false ∧
    isDigitStr (trimChars "11-50".data) = false :=
  ⟨by decide, by decide, by decide⟩

/-- C5 (amended): the extractor succeeds exactly on texts whose stripped
form matches `digits, optional whitespace, dash` or is a bare integer,
returning the leading integer; this domain strictly *contains* the
detector's stricter pattern (whitespace required around the dash) but is
not equal to it. -/
theorem C5_rating_extractor_amended :
    (∀ t : String, (extractRating t).isSome =
      ((looseDashPat (trimChars t.data)).isSome || isDigitStr (trimChars t.data))) ∧
    (∀ cs : List Char, ratingDashPat cs = true →
      looseDashPat cs = some (digitsToNat (cs.takeWhile Char.isDigit))) ∧
    (∀ t : String, ratingDashPat (trimChars t.data) = true →
      extractRating t =
        some (digitsToNat ((trimChars t.data).takeWhile Char.isDigit))) ∧
    (∀ t : String, isDigitStr (trimChars t.data) = true →
      extractRating t = some (digitsToNat (trimChars t.data))) := by
  refine ⟨?_, fun cs h => ratingDashPat_looseDashPat cs h, ?_, ?_⟩
  · intro t
    cases hl : looseDashPat (trimChars t.data) with
    | some n => simp [extractRating, hl]
    | none =>
        by_cases hd : isDigitStr (trimChars t.data)
        · simp [extractRating, hl, hd]
        · simp [extractRating, hl, hd]
  · intro t hpat
    have hl := ratingDashPat_looseDashPat _ hpat
    simp [extractRating, hl]
  · intro t hd
    have hl := looseDashPat_digits _ hd
    simp [extractRating, hl, hd]

theorem C5_rating_extractor_witness :
    extractRating "4 - good" =
      some (digitsToNat ((trimChars "4 - good".data).takeWhile Char.isDigit)) :=
  C5_rating_extractor_amended.2.2.1 "4 - good" (by decide)

/-- One multiple-choice question answered once by a single user. -/
def c6WitnessDoc : SurveyData :=
  { questions := some [
      { id := "q1", text := some "pick one", qtype := some "multiple_choice",
        results := some [{ user_id := some "u1", text := some "A" }] } ] }

def c6Choice : ChoiceEntry :=
  { label := "A", count := 1, pct := 100, rating := none, bar_width := 100 }

def c6QD : QuestionDist :=
  { question := "pick one", is_rating := false, is_multiselect := false,
    n_respondents := 1, choices := [c6Choice] }

/-- One user submitting the same choice text twice: `count = 2` against
`unique_users = 1` gives `pct = 200`. -/
def c6CexDoc : SurveyData :=
  { questions := some [
      { id := "q1", text := some "pick", qtype := some "multiple_choice",
        results := some [
          { user_id := some "u1", text := some "A" },
          { user_id := some "u1", text := some "A" } ] } ] }

def c6CexChoice : ChoiceEntry :=
  { label := "A", count := 2, pct := 200, rating := none, bar_width := 100 }

def c6CexQD : QuestionDist :=
  { question := "pick", is_rating := false, is_multiselect := true,
    n_respondents := 1, choices := [c6CexChoice] }

unseal Rat.mul Rat.inv Rat.add Rat.sub in
/-- C6 (counterexample): `pct` is computed as `count / unique_users * 100`,
and a duplicated answer makes `count` exceed `unique_users`, so `pct ≤ 100`
fails (here `pct = 200`). -/
theorem C6_pct_bounds_counterexample :
    buildQuestionDistributions c6CexDoc = .ok [c6CexQD] ∧
    c6CexChoice ∈ c6CexQD.choices ∧ ¬ c6CexChoice.pct ≤ 100 :=
  ⟨by decide, by decide, by decide⟩

/-- C6 (amended): for every ChoiceEntry of every computed
QuestionDistribution, `0 ≤ pct` and `0 ≤ bar_width ≤ 100`, and every choice
attaining the question's maximal `pct` has `bar_width = 100` provided that
maximum is positive.  (`pct ≤ 100` does not hold in general — see the
counterexample; and all-zero rounded pcts leave every `bar_width` at 0,
whence the positivity proviso.) -/
theorem C6_pct_bounds_amended (d : SurveyData) (l : List QuestionDist)
    (h : buildQuestionDistributions d = .ok l) :
    ∀ qd ∈ l, ∀ c ∈ qd.choices,
      0 ≤ c.pct ∧ 0 ≤ c.bar_width ∧ c.bar_width ≤ 100 ∧
      ((∀ c2 ∈ qd.choices, c2.pct ≤ c.pct) → 0 < c.pct → c.bar_width = 100) := by
  intro qd hqd
  simp only [buildQuestionDistributions] at h
  cases hme : mapExcept buildDistForQuestion (d.questions.getD []) with
  | error e => rw [hme] at h; exact absurd h (by simp)
  | ok opts =>
      rw [hme] at h
      have hl : l = opts.filterMap id := by cases h; rfl
      subst hl
      obtain ⟨o, ho, hid⟩ := List.mem_filterMap.1 hqd
      obtain ⟨qsrc, _, hq⟩ := mapExcept_ok_mem _ _ _ hme o ho
      cases o with
      | none => simp at hid
      | some qd2 =>
          have hqd2 : qd2 = qd := by simpa using hid
          subst hqd2
          exact buildDistForQuestion_bounds qsrc qd2 hq

unseal Rat.mul Rat.inv Rat.add Rat.sub in
theorem C6_pct_bounds_witness :
    0 ≤ c6Choice.pct ∧ 0 ≤ c6Choice.bar_width ∧ c6Choice.bar_width ≤ 100 ∧
    ((∀ c2 ∈ c6QD.choices, c2.pct ≤ c6Choice.pct) → 0 < c6Choice.pct →
      c6Choice.bar_width = 100) :=
  C6_pct_bounds_amended c6WitnessDoc [c6QD] (by decide) c6QD (by decide)
    c6Choice (by decide)

/-- The neutralized lower-cased title `categorize_role` matches against. -/
def neutralizedTitle (s : String) : List Char :=
  replaceSub "product owner".data "product_owner_excluded".data
    (trimChars (lowerChars s.data))

theorem string_ne_empty_data {s : String} (h : s ≠ "") :
    s.data.isEmpty = false := by
  cases s with
  | mk data =>
      cases data with
      | nil => exact absurd rfl h
      | cons c cs => rfl

/-- C7: `categorize_role` neutralizes "product owner", then tries the
ordered pattern groups founder/C-suite → VP/Director/Head → group-PM,
first match winning, defaulting to IC; the claim's concrete examples hold
(the VP title classifies as VP_DIRECTOR_HEAD, a null or empty title as
IC). -/
theorem C7_role_precedence :
    categorizeRole (some "VP of Product, previously a Product Owner") =
      RoleLevel.VP_DIRECTOR_HEAD ∧
    categorizeRole none = RoleLevel.IC ∧
    categorizeRole (some "") = RoleLevel.IC ∧
    (∀ s : String, s ≠ "" →
      searchAnyWB founderCsuitePatternList (neutralizedTitle s) = true →
      categorizeRole (some s) = RoleLevel.FOUNDER_CSUITE) ∧
    (∀ s : String, s ≠ "" →
      searchAnyWB founderCsuitePatternList (neutralizedTitle s) = false →
      searchAnyWB vpDirectorHeadPatternList (neutralizedTitle s) = true →
      categorizeRole (some s) = RoleLevel.VP_DIRECTOR_HEAD) ∧
    (∀ s : String, s ≠ "" →
      searchAnyWB founderCsuitePatternList (neutralizedTitle s) = false →
      searchAnyWB vpDirectorHeadPatternList (neutralizedTitle s) = false →
      searchAnyWB groupPmPatternList (neutralizedTitle s) = true →
      categorizeRole (some s) = RoleLevel.GROUP_PM_MANAGER) ∧
    (∀ s : String, s ≠ "" →
      searchAnyWB founderCsuitePatternList (neutralizedTitle s) = false →
      searchAnyWB vpDirectorHeadPatternList (neutralizedTitle s) = false →
      searchAnyWB groupPmPatternList (neutralizedTitle s) = false →
      searchSeniorManagerProduct false (neutralizedTitle s) = false →
      categorizeRole (some s) = RoleLevel.IC) := by
  refine ⟨by decide, rfl, by decide, ?_, ?_, ?_, ?_⟩
  · intro s hs h1
    simp only [neutralizedTitle] at h1
    simp only [categorizeRole]
    rw [if_neg (by simp [string_ne_empty_data hs]), if_pos h1]
  · intro s hs h1 h2
    simp only [neutralizedTitle] at h1 h2
    simp only [categorizeRole]
    rw [if_neg (by simp [string_ne_empty_data hs]),
      if_neg (by simp [h1]), if_pos h2]
  · intro s hs h1 h2 h3
    simp only [neutralizedTitle] at h1 h2 h3
    simp only [categorizeRole]
    rw [if_neg (by simp [string_ne_empty_data hs]),
      if_neg (by simp [h1]), if_neg (by simp [h2]), if_pos h3]
  · intro s hs h1 h2 h3 h4
    simp only [neutralizedTitle] at h1 h2 h3 h4
    simp only [categorizeRole]
    rw [if_neg (by simp [string_ne_empty_data hs]),
      if_neg (by simp [h1]), if_neg (by simp [h2]), if_neg (by simp [h3]),
      if_neg (by simp [h4])]

theorem C7_role_precedence_witness :
    categorizeRole (some "VP of Eng") = RoleLevel.VP_DIRECTOR_HEAD :=
  C7_role_precedence.2.2.2.2.1 "VP of Eng" (by decide) (by decide) (by decide)

/-- C8: the per-question lookup built by `ingest` maps each user to their
*last* non-deleted answer in input order (overwrite-on-insert); every field
derived from that question reads this lookup. -/
theorem C8_last_answer_wins (rs : List RawAnswer) (m : UserLookup)
    (uid : String) (h : byUser rs = .ok m) :
    alookup m uid =
      (rs.filter (fun r => !r.deleted && (r.user_id == some uid))).getLast? := by
  have hl := byUserAux_last uid rs [] m h
  rw [hl, show alookup ([] : UserLookup) uid = none from rfl]
  exact orElseO_none _

def c8Answers : List RawAnswer :=
  [{ user_id := some "u1", text := some "first" },
   { user_id := some "u1", text := some "second" }]

theorem C8_last_answer_wins_witness :
    alookup [("u1",
        ({ user_id := some "u1", text := some "second" } : RawAnswer))] "u1" =
      (c8Answers.filter
        (fun r => !r.deleted && (r.user_id == some "u1"))).getLast? :=
  C8_last_answer_wins c8Answers
    [("u1", { user_id := some "u1", text := some "second" })] "u1" (by decide)

/-- Four ordinal company-size brackets with mixed frequencies. -/
def c9Doc : SurveyData :=
  { questions := some [
      { id := "q1", text := some "Company size?", qtype := some "multiple_choice",
        results := some [
          { user_id := some "u1", text := some "11-50" },
          { user_id := some "u2", text := some "251-1000" },
          { user_id := some "u3", text := some "2-10" },
          { user_id := some "u4", text := some "2-10" },
          { user_id := some "u5", text := some "5001+" } ] } ] }

unseal Rat.mul Rat.inv Rat.add Rat.sub in
/-- C9: in `build_question_distributions`, a non-rating question's choices
are sorted ascending by leading integer exactly when the choice set is
ordinal (`_is_ordinal_choices`), otherwise the descending-frequency
(`most_common`) order is kept unchanged; rating questions sort ascending by
the extracted rating key; and the claim's bracket example sorts as stated. -/
theorem C9_choice_ordering :
    (∀ pres : List PreEntry, isOrdinalChoices (pres.map (fun e => e.raw)) = true →
      (sortChoices false pres).Pairwise (fun a b =>
        (ordinalSortKey a.raw.data).getD 0 ≤ (ordinalSortKey b.raw.data).getD 0) ∧
      (sortChoices false pres).Perm pres) ∧
    (∀ pres : List PreEntry, isOrdinalChoices (pres.map (fun e => e.raw)) = false →
      sortChoices false pres = pres) ∧
    (∀ pres : List PreEntry,
      (sortChoices true pres).Pairwise (fun a b =>
        a.rating.getD 0 ≤ b.rating.getD 0) ∧
      (sortChoices true pres).Perm pres) ∧
    isOrdinalChoices ["11-50", "251-1000", "2-10", "5001+"] = true ∧
    (buildQuestionDistributions c9Doc).map (fun l =>
        l.map (fun qd => (qd.is_rating, qd.choices.map (fun c => c.label)))) =
      .ok [(false, ["2-10", "11-50", "251-1000", "5001+"])] := by
  refine ⟨?_, ?_, ?_, by decide, by decide⟩
  · intro pres hord
    have hs : sortChoices false pres =
        sortAscBy (fun e => (ordinalSortKey e.raw.data).getD 0) pres := by
      simp [sortChoices, hord]
    rw [hs]
    exact ⟨sortAscBy_pairwise _ pres, sortAscBy_perm _ pres⟩
  · intro pres hord
    simp [sortChoices, hord]
  · intro pres
    have hs : sortChoices true pres =
        sortAscBy (fun e => e.rating.getD 0) pres := by
      simp [sortChoices]
    rw [hs]
    exact ⟨sortAscBy_pairwise _ pres, sortAscBy_perm _ pres⟩

def c9Pres : List PreEntry :=
  [{ label := "11-50", count := 1, pct := 0, rating := none, raw := "11-50" },
   { label := "251-1000", count := 1, pct := 0, rating := none, raw := "251-1000" },
   { label := "2-10", count := 2, pct := 0, rating := none, raw := "2-10" },
   { label := "5001+", count := 1, pct := 0, rating := none, raw := "5001+" }]

theorem C9_choice_ordering_witness :
    (sortChoices false c9Pres).Pairwise (fun a b =>
      (ordinalSortKey a.raw.data).getD 0 ≤ (ordinalSortKey b.raw.data).getD 0) ∧
    (sortChoices false c9Pres).Perm c9Pres :=
  C9_choice_ordering.1 c9Pres (by decide)

/-- C10: the duplicated distribution builders of `core.py` and `cli.py`
are extensionally equal, as are their label-shortening and ordinal
helpers. -/
theorem C10_cli_core_equal :
    (∀ d : SurveyData,
      cliBuildQuestionDistributions d = buildQuestionDistributions d) ∧
    (∀ s : String, cliShortChoice s = shortChoice s) ∧
    (∀ s : List Char, cliOrdinalSortKey s = ordinalSortKey s) ∧
    (∀ ts : List String, cliIsOrdinalChoices ts = isOrdinalChoices ts) :=
  ⟨fun _ => rfl, fun _ => rfl, fun _ => rfl, fun _ => rfl⟩

def c10Doc : SurveyData :=
  { questions := some [
      { id := "q1", text := some "which", qtype := some "multiple_choice",
        results := some [{ user_id := some "u1", text := some "4 - fine" }] } ] }

theorem C10_cli_core_equal_witness :
    cliBuildQuestionDistributions c10Doc = buildQuestionDistributions c10Doc :=
  C10_cli_core_equal.1 c10Doc

end LennysPolls
